import Mathlib

/-!
Verification of the secret-sealing core of `src/app.py`.

The development shallowly embeds the Python functions of the repository:
bytes are `List Nat` with every entry below 256, machine words are `Nat`
with explicit reduction (`% 2 ^ 32`, `% 2 ^ 64`), and the two external
effects (the Coder identity endpoint and AWS Secrets Manager) are passed
in explicitly: the identity as an `Env` record, the store as an
association list threaded through each operation.

The external cryptographic primitives invoked by the source
(`hashlib.sha256`/`sha512`, HKDF-SHA-256, AES-256-GCM, base64) are
implemented bit-exactly below.  The external X25519 primitive is modelled
as a Diffie-Hellman exchange over the multiplicative group modulo
`p = 2 ^ 255 - 19` with base point 9 and RFC 7748 scalar clamping: the
model keeps the byte formats, the clamping, the masking of public keys
and the Diffie-Hellman contract (`exchange a (pub b) = exchange b (pub a)`)
of the real function, replacing only the Montgomery-curve group by the
multiplicative group of the same modulus.
-/

namespace WalletCore

/-- Byte strings are lists of naturals; well-formed ones are below 256. -/
abbrev Bytes := List Nat

/-- Every entry of the list is a byte value. -/
def allBytes (l : Bytes) : Prop := ∀ x ∈ l, x < 256

instance (l : Bytes) : Decidable (allBytes l) := List.decidableBAll _ l

/-- Pointwise XOR of two byte strings (Python `bytes(a ^ b for ...)`). -/
def zipXor (a b : Bytes) : Bytes := List.zipWith (fun x y => x ^^^ y) a b

/-- Little-endian value of a byte string (`int.from_bytes(b, "little")`). -/
def fromLE (b : Bytes) : Nat := b.foldr (fun x acc => x + 256 * acc) 0

/-- Little-endian encoding into a fixed width (`n.to_bytes(len, "little")`,
except that an overflowing value is truncated instead of raising). -/
def toLE : Nat → Nat → Bytes
  | 0, _ => []
  | len + 1, n => n % 256 :: toLE len (n / 256)

/-- Big-endian value of a byte string (`int.from_bytes(b, "big")`). -/
def fromBE (b : Bytes) : Nat := b.foldl (fun acc x => 256 * acc + x) 0

/-- Big-endian encoding into a fixed width (`n.to_bytes(len, "big")`). -/
def toBE (len n : Nat) : Bytes := (toLE len n).reverse

/-- Square-and-multiply helper for `powMod`; the first argument is
recursion fuel, one unit per halving of the exponent. -/
def powModAux (m : Nat) : Nat → Nat → Nat → Nat
  | 0, _, _ => 1 % m
  | fuel + 1, b, e =>
    if e = 0 then 1 % m
    else
      let r := powModAux m fuel (b * b % m) (e / 2)
      if e % 2 = 1 then r * (b % m) % m else r

/-- Fast modular exponentiation, as Python's three-argument `pow`. -/
def powMod (m b e : Nat) : Nat := powModAux m (e + 1) b e

/-! ## SHA-256 (FIPS 180-4), as used via `hashlib.sha256` -/

/-- Reduce to a 32-bit word. -/
def w32 (n : Nat) : Nat := n % 4294967296

/-- Right rotation of a 32-bit word. -/
def rotr32 (k n : Nat) : Nat := (n >>> k) ||| w32 (n <<< (32 - k))

/-- The eight working variables of SHA-2 compression. -/
structure Hash8 where
  a : Nat
  b : Nat
  c : Nat
  d : Nat
  e : Nat
  f : Nat
  g : Nat
  h : Nat
deriving DecidableEq

/-- SHA-256 round constants. -/
def sha256K : List Nat :=
  [1116352408, 1899447441, 3049323471, 3921009573, 961987163, 1508970993, 2453635748, 2870763221,
   3624381080, 310598401, 607225278, 1426881987, 1925078388, 2162078206, 2614888103, 3248222580,
   3835390401, 4022224774, 264347078, 604807628, 770255983, 1249150122, 1555081692, 1996064986,
   2554220882, 2821834349, 2952996808, 3210313671, 3336571891, 3584528711, 113926993, 338241895,
   666307205, 773529912, 1294757372, 1396182291, 1695183700, 1986661051, 2177026350, 2456956037,
   2730485921, 2820302411, 3259730800, 3345764771, 3516065817, 3600352804, 4094571909, 275423344,
   430227734, 506948616, 659060556, 883997877, 958139571, 1322822218, 1537002063, 1747873779,
   1955562222, 2024104815, 2227730452, 2361852424, 2428436474, 2756734187, 3204031479, 3329325298]

/-- SHA-256 initial hash value. -/
def sha256H0 : Hash8 :=
  ⟨1779033703, 3144134277, 1013904242, 2773480762, 1359893119, 2600822924, 528734635, 1541459225⟩

/-- Next word of the SHA-256 message schedule from the last 16 words. -/
def sha256Next (w : List Nat) : Nat :=
  let n := w.length
  let g := fun i => w.getD (n - i) 0
  let s0 := rotr32 7 (g 15) ^^^ rotr32 18 (g 15) ^^^ (g 15 >>> 3)
  let s1 := rotr32 17 (g 2) ^^^ rotr32 19 (g 2) ^^^ (g 2 >>> 10)
  w32 (g 16 + s0 + g 7 + s1)

/-- Extend the message schedule by `k` further words. -/
def extendSched (next : List Nat → Nat) : Nat → List Nat → List Nat
  | 0, w => w
  | k + 1, w => extendSched next k (w ++ [next w])

/-- One SHA-256 compression round; `kw` is the round constant plus the
schedule word, already reduced. -/
def sha256Round (st : Hash8) (kw : Nat) : Hash8 :=
  let s1 := rotr32 6 st.e ^^^ rotr32 11 st.e ^^^ rotr32 25 st.e
  let ch := (st.e &&& st.f) ^^^ ((st.e ^^^ 4294967295) &&& st.g)
  let t1 := w32 (st.h + s1 + ch + kw)
  let s0 := rotr32 2 st.a ^^^ rotr32 13 st.a ^^^ rotr32 22 st.a
  let mj := (st.a &&& st.b) ^^^ (st.a &&& st.c) ^^^ (st.b &&& st.c)
  let t2 := w32 (s0 + mj)
  ⟨w32 (t1 + t2), st.a, st.b, st.c, w32 (st.d + t1), st.e, st.f, st.g⟩

/-- Compress one 64-byte block into the running SHA-256 state. -/
def sha256Compress (st : Hash8) (block : Bytes) : Hash8 :=
  let w0 := (List.range 16).map (fun i => fromBE ((block.drop (4 * i)).take 4))
  let w := extendSched sha256Next 48 w0
  let fin := (w.zip sha256K).foldl (fun s p => sha256Round s (w32 (p.1 + p.2))) st
  ⟨w32 (st.a + fin.a), w32 (st.b + fin.b), w32 (st.c + fin.c), w32 (st.d + fin.d),
   w32 (st.e + fin.e), w32 (st.f + fin.f), w32 (st.g + fin.g), w32 (st.h + fin.h)⟩

/-- Merkle-Damgard padding shared by SHA-256 (64/8) and SHA-512 (128/16). -/
def shaPad (blockSize lenBytes : Nat) (msg : Bytes) : Bytes :=
  let L := msg.length
  let k := (blockSize - (L + 1 + lenBytes) % blockSize) % blockSize
  msg ++ [128] ++ List.replicate k 0 ++ toBE lenBytes (8 * L)

/-- Fold a compression function over consecutive `size`-byte blocks; the
first argument of the recursion is fuel, one unit per block. -/
def foldBlocks (f : Hash8 → Bytes → Hash8) (size : Nat) : Nat → Hash8 → Bytes → Hash8
  | 0, st, _ => st
  | fuel + 1, st, l =>
    if l = [] then st
    else foldBlocks f size fuel (f st (l.take size)) (l.drop size)

/-- SHA-256 digest of a byte string, 32 bytes. -/
def sha256 (msg : Bytes) : Bytes :=
  let fin := foldBlocks sha256Compress 64 (shaPad 64 8 msg).length sha256H0 (shaPad 64 8 msg)
  toBE 4 fin.a ++ toBE 4 fin.b ++ toBE 4 fin.c ++ toBE 4 fin.d ++
    toBE 4 fin.e ++ toBE 4 fin.f ++ toBE 4 fin.g ++ toBE 4 fin.h

/-! ## SHA-512 (FIPS 180-4), as used via `hashlib.sha512` -/

/-- Reduce to a 64-bit word. -/
def w64 (n : Nat) : Nat := n % 18446744073709551616

/-- Right rotation of a 64-bit word. -/
def rotr64 (k n : Nat) : Nat := (n >>> k) ||| w64 (n <<< (64 - k))

/-- SHA-512 round constants. -/
def sha512K : List Nat :=
  [4794697086780616226, 8158064640168781261, 13096744586834688815, 16840607885511220156,
   4131703408338449720, 6480981068601479193, 10538285296894168987, 12329834152419229976,
   15566598209576043074, 1334009975649890238, 2608012711638119052, 6128411473006802146,
   8268148722764581231, 9286055187155687089, 11230858885718282805, 13951009754708518548,
   16472876342353939154, 17275323862435702243, 1135362057144423861, 2597628984639134821,
   3308224258029322869, 5365058923640841347, 6679025012923562964, 8573033837759648693,
   10970295158949994411, 12119686244451234320, 12683024718118986047, 13788192230050041572,
   14330467153632333762, 15395433587784984357, 489312712824947311, 1452737877330783856,
   2861767655752347644, 3322285676063803686, 5560940570517711597, 5996557281743188959,
   7280758554555802590, 8532644243296465576, 9350256976987008742, 10552545826968843579,
   11727347734174303076, 12113106623233404929, 14000437183269869457, 14369950271660146224,
   15101387698204529176, 15463397548674623760, 17586052441742319658, 1182934255886127544,
   1847814050463011016, 2177327727835720531, 2830643537854262169, 3796741975233480872,
   4115178125766777443, 5681478168544905931, 6601373596472566643, 7507060721942968483,
   8399075790359081724, 8693463985226723168, 9568029438360202098, 10144078919501101548,
   10430055236837252648, 11840083180663258601, 13761210420658862357, 14299343276471374635,
   14566680578165727644, 15097957966210449927, 16922976911328602910, 17689382322260857208,
   500013540394364858, 748580250866718886, 1242879168328830382, 1977374033974150939,
   2944078676154940804, 3659926193048069267, 4368137639120453308, 4836135668995329356,
   5532061633213252278, 6448918945643986474, 6902733635092675308, 7801388544844847127]

/-- SHA-512 initial hash value. -/
def sha512H0 : Hash8 :=
  ⟨7640891576956012808, 13503953896175478587, 4354685564936845355, 11912009170470909681,
   5840696475078001361, 11170449401992604703, 2270897969802886507, 6620516959819538809⟩

/-- Next word of the SHA-512 message schedule from the last 16 words. -/
def sha512Next (w : List Nat) : Nat :=
  let n := w.length
  let g := fun i => w.getD (n - i) 0
  let s0 := rotr64 1 (g 15) ^^^ rotr64 8 (g 15) ^^^ (g 15 >>> 7)
  let s1 := rotr64 19 (g 2) ^^^ rotr64 61 (g 2) ^^^ (g 2 >>> 6)
  w64 (g 16 + s0 + g 7 + s1)

/-- One SHA-512 compression round. -/
def sha512Round (st : Hash8) (kw : Nat) : Hash8 :=
  let s1 := rotr64 14 st.e ^^^ rotr64 18 st.e ^^^ rotr64 41 st.e
  let ch := (st.e &&& st.f) ^^^ ((st.e ^^^ 18446744073709551615) &&& st.g)
  let t1 := w64 (st.h + s1 + ch + kw)
  let s0 := rotr64 28 st.a ^^^ rotr64 34 st.a ^^^ rotr64 39 st.a
  let mj := (st.a &&& st.b) ^^^ (st.a &&& st.c) ^^^ (st.b &&& st.c)
  let t2 := w64 (s0 + mj)
  ⟨w64 (t1 + t2), st.a, st.b, st.c, w64 (st.d + t1), st.e, st.f, st.g⟩

/-- Compress one 128-byte block into the running SHA-512 state. -/
def sha512Compress (st : Hash8) (block : Bytes) : Hash8 :=
  let w0 := (List.range 16).map (fun i => fromBE ((block.drop (8 * i)).take 8))
  let w := extendSched sha512Next 64 w0
  let fin := (w.zip sha512K).foldl (fun s p => sha512Round s (w64 (p.1 + p.2))) st
  ⟨w64 (st.a + fin.a), w64 (st.b + fin.b), w64 (st.c + fin.c), w64 (st.d + fin.d),
   w64 (st.e + fin.e), w64 (st.f + fin.f), w64 (st.g + fin.g), w64 (st.h + fin.h)⟩

/-- SHA-512 digest of a byte string, 64 bytes. -/
def sha512 (msg : Bytes) : Bytes :=
  let fin := foldBlocks sha512Compress 128 (shaPad 128 16 msg).length sha512H0 (shaPad 128 16 msg)
  toBE 8 fin.a ++ toBE 8 fin.b ++ toBE 8 fin.c ++ toBE 8 fin.d ++
    toBE 8 fin.e ++ toBE 8 fin.f ++ toBE 8 fin.g ++ toBE 8 fin.h

/-! ## UTF-8 encoding, as used via Python `str.encode()` -/

/-- UTF-8 encoding of one code point. -/
def utf8Char (c : Char) : Bytes :=
  let n := c.toNat
  if n < 128 then [n]
  else if n < 2048 then [192 + n / 64, 128 + n % 64]
  else if n < 65536 then [224 + n / 4096, 128 + n / 64 % 64, 128 + n % 64]
  else [240 + n / 262144, 128 + n / 4096 % 64, 128 + n / 64 % 64, 128 + n % 64]

/-- UTF-8 encoding of a string (`s.encode()`). -/
def utf8Bytes (s : String) : Bytes := s.data.flatMap utf8Char

/-! ## HMAC-SHA-256 and HKDF (RFC 2104 / RFC 5869), as used via
`cryptography.hazmat.primitives.kdf.hkdf.HKDF` -/

/-- HMAC-SHA-256 of `msg` under `key`. -/
def hmacSha256 (key msg : Bytes) : Bytes :=
  let k0 :=
    if 64 < key.length then sha256 key ++ List.replicate 32 0
    else key ++ List.replicate (64 - key.length) 0
  let ipad := k0.map (fun b => b ^^^ 54)
  let opad := k0.map (fun b => b ^^^ 92)
  sha256 (opad ++ sha256 (ipad ++ msg))

/-- The `T(1), T(2), ...` blocks of HKDF-Expand: `count` blocks starting
from counter `i` with previous block `prevT`. -/
def hkdfBlocks (prk info : Bytes) : Nat → Nat → Bytes → Bytes
  | 0, _, _ => []
  | n + 1, i, prevT =>
    let t := hmacSha256 prk (prevT ++ info ++ [i])
    t ++ hkdfBlocks prk info n (i + 1) t

/-- HKDF-SHA-256 with explicit salt: extract then expand to `L` bytes. -/
def hkdfSha256 (salt info : Bytes) (L : Nat) (ikm : Bytes) : Bytes :=
  let prk := hmacSha256 salt ikm
  (hkdfBlocks prk info ((L + 31) / 32) 1 []).take L

/-- The output-length validation the library performs at construction
time (`length > 255 * digest_size` raises): the only failure mode of
`HKDF.derive`. -/
def hkdfLengthOk (L : Nat) : Bool := decide (L ≤ 255 * 32)

/-- Embedding of `_derive_key` (src/app.py:68-72): HKDF over SHA-256 with
`length=32`, `salt=None` and `info=b"wallet-encryption"`.  The library
replaces a `None` salt by `digest_size` zero bytes. -/
def deriveKey (sharedKey : Bytes) : Bytes :=
  let salt : Option Bytes := none
  hkdfSha256 (salt.getD (List.replicate 32 0)) (utf8Bytes "wallet-encryption") 32 sharedKey

/-! ## X25519 model and the Ed25519 to X25519 conversion
(`_ed25519_to_x25519`, src/app.py:47-65) -/

/-- The Curve25519 prime `2 ^ 255 - 19`. -/
def p25519 : Nat := 2 ^ 255 - 19

/-- RFC 7748 scalar clamping on a 32-byte string, exactly the three byte
operations of src/app.py:52-54: `b[0] &= 248; b[31] &= 127; b[31] |= 64`. -/
def clampBytes (b : Bytes) : Bytes :=
  let b1 := b.set 0 (b.getD 0 0 &&& 248)
  b1.set 31 ((b1.getD 31 0 &&& 127) ||| 64)

/-- A public key decodes to a group element by masking off the top bit,
as in src/app.py:58 (`& ((1 << 255) - 1)`) and RFC 7748. -/
def maskPoint (b : Bytes) : Nat := fromLE b &&& (2 ^ 255 - 1)

/-- Model of the external `X25519PrivateKey.exchange`: the clamped scalar
exponentiates the masked peer element in the multiplicative group modulo
`p25519`, and the result is encoded as 32 little-endian bytes.  (The real
primitive uses the Montgomery-curve group over the same modulus; the
byte formats, clamping, masking and the Diffie-Hellman contract are
preserved.) -/
def x25519Exchange (privBytes pubBytes : Bytes) : Bytes :=
  toLE 32 (powMod p25519 (maskPoint pubBytes) (fromLE (clampBytes privBytes)))

/-- The model's base point, 9 as in RFC 7748. -/
def x25519Base : Bytes := toLE 32 9

/-- Model of `X25519PrivateKey.public_key().public_bytes_raw()`: the
exchange applied to the base point. -/
def x25519PubOf (privBytes : Bytes) : Bytes := x25519Exchange privBytes x25519Base

/-- Extended Euclidean algorithm with explicit fuel (one unit per
division step): `xgcdFuel fuel a b = (g, x, y)` with `g = gcd a b` and
`a * x + b * y = g`. -/
def xgcdFuel : Nat → Nat → Nat → Nat × Int × Int
  | 0, a, _ => (a, 1, 0)
  | fuel + 1, a, b =>
    if b = 0 then (a, 1, 0)
    else
      match xgcdFuel fuel b (a % b) with
      | (g, x, y) => (g, y, x - ((a / b : Nat) : Int) * y)

/-- Python's `pow(a, -1, n)` on an arbitrary integer base: the modular
inverse of the canonical residue computed by the extended Euclidean
algorithm, or a failure (Python: `ValueError`) when no inverse exists. -/
def intInvMod (a : Int) (n : Nat) : Option Nat :=
  if (xgcdFuel (n + 1) ((a % (n : Int)).toNat) n).1 = 1 then
    some (((xgcdFuel (n + 1) ((a % (n : Int)).toNat) n).2.1 % (n : Int)).toNat)
  else none

/-- Embedding of `_ed25519_to_x25519` (src/app.py:47-65).  Private side:
clamp the first 32 bytes of SHA-512 of the raw private key.  Public side:
the birational map `u = (1 + y) * pow(1 - y, -1, p) % p` on the masked
little-endian value `y` of the raw public key.  `none` models the
`ValueError` Python raises when `1 - y` has no inverse modulo `p`. -/
def ed25519ToX25519 (edPrivRaw edPubRaw : Bytes) : Option (Bytes × Bytes) :=
  let h := sha512 edPrivRaw
  let xPriv := clampBytes (h.take 32)
  let y : Int := (fromLE edPubRaw &&& (2 ^ 255 - 1) : Nat)
  match intInvMod (1 - y) p25519 with
  | none => none
  | some inv =>
    let u := (((1 + y) * (inv : Int)) % (p25519 : Int)).toNat
    some (xPriv, toLE 32 u)

/-- Modelled from the spec: the conversion entry point of §4.1 also fails
with `InvalidKeyMaterial` when the supplied key cannot be parsed as
Ed25519.  In src/app.py the OpenSSH parsing happens in the external
`serialization.load_ssh_private_key` call before `_ed25519_to_x25519`
receives the key objects; the parse boundary is modelled as an
`Option`-valued input (`none` = unparseable), whose failure propagates. -/
def convertParsedIdentity (parsed : Option (Bytes × Bytes)) : Option (Bytes × Bytes) :=
  match parsed with
  | none => none
  | some (priv, pub) => ed25519ToX25519 priv pub

/-! ## AES-256 (FIPS 197), as used via `algorithms.AES` -/

/-- The AES S-box (FIPS 197, figure 7). -/
def sbox : List Nat :=
  [99, 124, 119, 123, 242, 107, 111, 197, 48, 1, 103, 43, 254, 215, 171, 118,
   202, 130, 201, 125, 250, 89, 71, 240, 173, 212, 162, 175, 156, 164, 114, 192,
   183, 253, 147, 38, 54, 63, 247, 204, 52, 165, 229, 241, 113, 216, 49, 21,
   4, 199, 35, 195, 24, 150, 5, 154, 7, 18, 128, 226, 235, 39, 178, 117,
   9, 131, 44, 26, 27, 110, 90, 160, 82, 59, 214, 179, 41, 227, 47, 132,
   83, 209, 0, 237, 32, 252, 177, 91, 106, 203, 190, 57, 74, 76, 88, 207,
   208, 239, 170, 251, 67, 77, 51, 133, 69, 249, 2, 127, 80, 60, 159, 168,
   81, 163, 64, 143, 146, 157, 56, 245, 188, 182, 218, 33, 16, 255, 243, 210,
   205, 12, 19, 236, 95, 151, 68, 23, 196, 167, 126, 61, 100, 93, 25, 115,
   96, 129, 79, 220, 34, 42, 144, 136, 70, 238, 184, 20, 222, 94, 11, 219,
   224, 50, 58, 10, 73, 6, 36, 92, 194, 211, 172, 98, 145, 149, 228, 121,
   231, 200, 55, 109, 141, 213, 78, 169, 108, 86, 244, 234, 101, 122, 174, 8,
   186, 120, 37, 46, 28, 166, 180, 198, 232, 221, 116, 31, 75, 189, 139, 138,
   112, 62, 181, 102, 72, 3, 246, 14, 97, 53, 87, 185, 134, 193, 29, 158,
   225, 248, 152, 17, 105, 217, 142, 148, 155, 30, 135, 233, 206, 85, 40, 223,
   140, 161, 137, 13, 191, 230, 66, 104, 65, 153, 45, 15, 176, 84, 187, 22]

/-- S-box lookup. -/
def sb (x : Nat) : Nat := sbox.getD x 0

/-- Round constants of the key schedule. -/
def rcon : List Nat := [1, 2, 4, 8, 16, 32, 64, 128, 27, 54]

/-- Multiplication by x in GF(2^8) modulo the AES polynomial. -/
def xtime (x : Nat) : Nat := (if 128 ≤ x then (2 * x) ^^^ 27 else 2 * x) % 256

/-- Word `i` of the AES-256 key schedule, given the previous words. -/
def nextKeyWord (ws : List Bytes) (i : Nat) : Bytes :=
  let prev := ws.getD (i - 1) []
  let t :=
    if i % 8 = 0 then
      match (prev.drop 1 ++ prev.take 1).map sb with
      | x :: xs => (x ^^^ rcon.getD (i / 8 - 1) 0) :: xs
      | [] => []
    else if i % 8 = 4 then prev.map sb
    else prev
  zipXor (ws.getD (i - 8) []) t

/-- Append `k` further words to a key schedule. -/
def expandWords : Nat → List Bytes → List Bytes
  | 0, ws => ws
  | k + 1, ws => expandWords k (ws ++ [nextKeyWord ws ws.length])

/-- AES-256 key expansion: 60 four-byte words from a 32-byte key. -/
def keyExpansion (key : Bytes) : List Bytes :=
  expandWords 52 ((List.range 8).map (fun i => (key.drop (4 * i)).take 4))

/-- The 16 bytes of round key `r`. -/
def roundKey (ws : List Bytes) (r : Nat) : Bytes := ((ws.drop (4 * r)).take 4).flatten

/-- SubBytes. -/
def subBytesOp (s : Bytes) : Bytes := s.map sb

/-- The index permutation realizing ShiftRows on the column-major state. -/
def shiftRowsIdx : List Nat := [0, 5, 10, 15, 4, 9, 14, 3, 8, 13, 2, 7, 12, 1, 6, 11]

/-- ShiftRows. -/
def shiftRowsOp (s : Bytes) : Bytes := shiftRowsIdx.map (fun i => s.getD i 0)

/-- MixColumns on one column. -/
def mixCol (a0 a1 a2 a3 : Nat) : Bytes :=
  [xtime a0 ^^^ (xtime a1 ^^^ a1) ^^^ a2 ^^^ a3,
   a0 ^^^ xtime a1 ^^^ (xtime a2 ^^^ a2) ^^^ a3,
   a0 ^^^ a1 ^^^ xtime a2 ^^^ (xtime a3 ^^^ a3),
   (xtime a0 ^^^ a0) ^^^ a1 ^^^ a2 ^^^ xtime a3]

/-- MixColumns. -/
def mixColumnsOp (s : Bytes) : Bytes :=
  (List.range 4).flatMap (fun c =>
    mixCol (s.getD (4 * c) 0) (s.getD (4 * c + 1) 0) (s.getD (4 * c + 2) 0) (s.getD (4 * c + 3) 0))

/-- One middle round of AES. -/
def aesRound (ws : List Bytes) (s : Bytes) (r : Nat) : Bytes :=
  zipXor (mixColumnsOp (shiftRowsOp (subBytesOp s))) (roundKey ws r)

/-- AES-256 encryption of one 16-byte block. -/
def aes256Block (key block : Bytes) : Bytes :=
  let ws := keyExpansion key
  let s0 := zipXor block (roundKey ws 0)
  let sMain := (List.range 13).foldl (fun s i => aesRound ws s (i + 1)) s0
  zipXor (shiftRowsOp (subBytesOp sMain)) (roundKey ws 14)

/-! ## GCM mode (NIST SP 800-38D), as used via `modes.GCM` with a
96-bit IV, empty associated data and the default 16-byte tag -/

/-- Multiplication in GF(2^128) with GCM's reflected bit convention. -/
def gf128Mul (x y : Nat) : Nat :=
  let step := fun (zv : Nat × Nat) (i : Nat) =>
    let z := if (x >>> (127 - i)) &&& 1 = 1 then zv.1 ^^^ zv.2 else zv.1
    let v := if zv.2 &&& 1 = 1 then (zv.2 >>> 1) ^^^ (225 <<< 120) else zv.2 >>> 1
    (z, v)
  ((List.range 128).foldl step (0, y)).1

/-- GHASH over consecutive 16-byte blocks (zero-padding a short tail);
the first argument of the recursion is fuel, one unit per block. -/
def ghashFold (hsub : Nat) : Nat → Nat → Bytes → Nat
  | 0, y, _ => y
  | fuel + 1, y, data =>
    if data = [] then y
    else
      let blk := data.take 16
      let blk16 := blk ++ List.replicate (16 - blk.length) 0
      ghashFold hsub fuel (gf128Mul (y ^^^ fromBE blk16) hsub) (data.drop 16)

/-- Block-by-block generation of the CTR keystream; the first argument of
the recursion is fuel, one unit per block. -/
def keystreamAux (key iv : Bytes) : Nat → Nat → Nat → Bytes
  | 0, _, _ => []
  | fuel + 1, counter, n =>
    if n = 0 then []
    else
      (aes256Block key (iv ++ toBE 4 counter)).take n ++
        keystreamAux key iv fuel (counter + 1) (n - 16)

/-- The CTR-mode keystream: `n` bytes from 32-bit big-endian counters
appended to the IV, starting at counter value `counter`. -/
def keystream (key iv : Bytes) (counter : Nat) (n : Nat) : Bytes :=
  keystreamAux key iv n counter n

/-- The GCM authentication tag over a ciphertext (associated data empty):
`GHASH_H(C || pad || len) XOR E_K(J0)`. -/
def gcmTag (key iv ct : Bytes) : Bytes :=
  let hsub := fromBE (aes256Block key (List.replicate 16 0))
  let lenBlock := toBE 8 0 ++ toBE 8 (8 * ct.length)
  let pad := List.replicate ((16 - ct.length % 16) % 16) 0
  let s := ghashFold hsub (ct ++ pad ++ lenBlock).length 0 (ct ++ pad ++ lenBlock)
  zipXor (toBE 16 s) (aes256Block key (iv ++ toBE 4 1))

/-- GCM encryption of the plaintext: CTR keystream from counter 2
(`inc32(J0)`), XORed onto the plaintext. -/
def gcmCipher (key iv pt : Bytes) : Bytes :=
  zipXor pt (keystream key iv 2 pt.length)

/-- GCM decrypt-and-verify: `none` on tag mismatch, never partial
plaintext. -/
def gcmDecrypt (key iv ct tag : Bytes) : Option Bytes :=
  if gcmTag key iv ct = tag then some (zipXor ct (keystream key iv 2 ct.length)) else none

/-! ## Base64 (RFC 4648), as used via `base64.b64encode` -/

/-- The base64 alphabet. -/
def b64Alphabet : List Char :=
  "ABCDEFGHIJKLMNOPQRSTUVWXYZabcdefghijklmnopqrstuvwxyz0123456789+/".toList

/-- Character for a sextet. -/
def b64CharOf (n : Nat) : Char := b64Alphabet.getD n '?'

/-- Position of a character in the alphabet, if any. -/
def b64IndexOf (c : Char) : Option Nat :=
  let i := b64Alphabet.findIdx (fun x => x == c)
  if i < 64 then some i else none

/-- Base64 encoding, three input bytes to four output characters with
`=` padding. -/
def b64EncodeChars : Bytes → List Char
  | [] => []
  | [a] => [b64CharOf (a / 4), b64CharOf (a % 4 * 16), '=', '=']
  | [a, b] => [b64CharOf (a / 4), b64CharOf (a % 4 * 16 + b / 16), b64CharOf (b % 16 * 4), '=']
  | a :: b :: c :: rest =>
    b64CharOf (a / 4) :: b64CharOf (a % 4 * 16 + b / 16) ::
      b64CharOf (b % 16 * 4 + c / 64) :: b64CharOf (c % 64) :: b64EncodeChars rest

/-- `base64.b64encode(payload).decode("utf-8")`. -/
def b64Encode (b : Bytes) : String := String.mk (b64EncodeChars b)

/-- Base64 decoding, the partial inverse of `b64EncodeChars`. -/
def b64DecodeChars : List Char → Option Bytes
  | [] => some []
  | c1 :: c2 :: c3 :: c4 :: rest =>
    match b64IndexOf c1, b64IndexOf c2 with
    | some k1, some k2 =>
      if c3 = '=' then
        if c4 = '=' ∧ rest = [] then some [k1 * 4 + k2 / 16] else none
      else
        match b64IndexOf c3 with
        | some k3 =>
          if c4 = '=' then
            if rest = [] then some [k1 * 4 + k2 / 16, k2 % 16 * 16 + k3 / 4] else none
          else
            match b64IndexOf c4, b64DecodeChars rest with
            | some k4, some bs =>
              some ((k1 * 4 + k2 / 16) :: (k2 % 16 * 16 + k3 / 4) :: (k3 % 4 * 64 + k4) :: bs)
            | _, _ => none
        | none => none
    | _, _ => none
  | _ => none

/-- Base64 decoding of a stored payload string. -/
def b64Decode (s : String) : Option Bytes := b64DecodeChars s.data

/-! ## The sealed-payload codec: `_encrypt_payload` (src/app.py:75-86)
and the spec's `unseal` -/

/-- Embedding of `_encrypt_payload` (src/app.py:75-86).  The two random
draws of the source - the fresh ephemeral X25519 private key
(`X25519PrivateKey.generate()`) and the 12-byte IV (`os.urandom(12)`) -
are passed in as the explicit arguments `ephPriv` and `iv`. -/
def encryptPayload (plaintext : String) (peerPub ephPriv iv : Bytes) : String :=
  let sharedKey := x25519Exchange ephPriv peerPub
  let derivedKey := deriveKey sharedKey
  let ct := gcmCipher derivedKey iv (utf8Bytes plaintext)
  let tag := gcmTag derivedKey iv ct
  b64Encode (iv ++ x25519PubOf ephPriv ++ tag ++ ct)

/-- Failure modes of `unseal` named in the spec's error taxonomy. -/
inductive UnsealErr where
  | malformedPayload
  | authenticationFailed
deriving DecidableEq

/-- Modelled from the spec: `unseal` (§4.3) has no counterpart in
src/app.py (the core's read path is unimplemented there); following the
spec it base64-decodes the blob, fails with `MalformedPayload` when it is
shorter than the 12+32+16 fixed fields, splits `IV || ephemeral_public ||
tag || ciphertext`, recomputes the shared secret from the recipient's
static private key and the embedded ephemeral public key, re-derives the
symmetric key, and decrypts-and-verifies, failing with
`AuthenticationFailed` when the tag does not verify. -/
def unsealPayload (payload : String) (recipPriv : Bytes) : Except UnsealErr Bytes :=
  match b64Decode payload with
  | none => .error .malformedPayload
  | some bs =>
    if bs.length < 60 then .error .malformedPayload
    else
      let iv := bs.take 12
      let ephPub := (bs.drop 12).take 32
      let tag := (bs.drop 44).take 16
      let ct := bs.drop 60
      let derivedKey := deriveKey (x25519Exchange recipPriv ephPub)
      match gcmDecrypt derivedKey iv ct tag with
      | none => .error .authenticationFailed
      | some pt => .ok pt

/-! ## The wallet secret manager (src/app.py:16-22, 89-189, 382-423) -/

/-- Lowercase hexadecimal digits. -/
def hexDigits : List Char := "0123456789abcdef".toList

/-- The two hex characters of one byte. -/
def hexByte (b : Nat) : List Char := [hexDigits.getD (b / 16) 'x', hexDigits.getD (b % 16) 'x']

/-- Python's `hashlib.sha256(...).hexdigest()` textual form. -/
def hexDigest (bs : Bytes) : String := String.mk (bs.flatMap hexByte)

/-- The closed token-type registry `TOKEN_TYPES` (src/app.py:17-22), in
the source's insertion order: token type to name prefix. -/
def tokenTypes : List (String × String) :=
  [("gitlab_token", "gitlab"), ("jira_token", "jira"),
   ("claude_token", "claude"), ("confluence_token", "confluence")]

/-- The display labels `_TOKEN_LABELS` (src/app.py:272-277). -/
def tokenLabels : List (String × String) :=
  [("gitlab_token", "GitLab token"), ("jira_token", "JIRA token"),
   ("claude_token", "Claude token"), ("confluence_token", "Confluence token")]

/-- The caller's identity as the handlers observe it: the
`GIT_COMMITTER_EMAIL` environment variable, the `public_key` text the
Coder endpoint returns (`_fetch_git_ssh_key`), and the raw byte views the
external `serialization.load_ssh_private_key(...)` /
`.public_key()` objects expose via `private_bytes_raw()` and
`public_bytes_raw()`. -/
structure Env where
  email : String
  sshPubText : String
  edPrivRaw : Bytes
  edPubRaw : Bytes

/-- One Secrets Manager entry: its current string value and whether the
store reports it soft-deleted (`DeletedDate` present). -/
structure StoreEntry where
  value : String
  deleted : Bool
deriving DecidableEq

/-- The external secret store, addressed by secret name. -/
abbrev Store := List (String × StoreEntry)

/-- `describe_secret`: `none` models `ResourceNotFoundException`. -/
def describeSecret (st : Store) (name : String) : Option StoreEntry :=
  (st.find? (fun kv => kv.1 == name)).map Prod.snd

/-- `create_secret`: `none` models `ResourceExistsException`. -/
def createSecret (st : Store) (name value : String) : Option Store :=
  if (st.find? (fun kv => kv.1 == name)).isSome then none
  else some (st ++ [(name, ⟨value, false⟩)])

/-- `put_secret_value`: overwrite in place; `none` models
`ResourceNotFoundException` when no entry has this name. -/
def putSecretValue (st : Store) (name value : String) : Option Store :=
  if (st.find? (fun kv => kv.1 == name)).isSome then
    some (st.map (fun kv => if kv.1 == name then (kv.1, ⟨value, kv.2.deleted⟩) else kv))
  else none

/-- `delete_secret(..., ForceDeleteWithoutRecovery=True)`: remove the
entry; `none` models `ResourceNotFoundException`. -/
def deleteSecretOp (st : Store) (name : String) : Option Store :=
  if (st.find? (fun kv => kv.1 == name)).isSome then
    some (st.filter (fun kv => kv.1 != name))
  else none

/-- Embedding of `_store_secret` (src/app.py:89-94): try `create_secret`
and fall back to `put_secret_value` when the name already exists. -/
def storeSecret (st : Store) (name value : String) : Store :=
  match createSecret st name value with
  | some st2 => st2
  | none => (putSecretValue st name value).getD st

/-- Python's default whitespace set for `str.strip()` (ASCII part). -/
def pySpace (c : Char) : Bool :=
  c == ' ' || c == '\t' || c == '\n' || c == '\x0b' || c == '\x0c' || c == '\r'

/-- Embedding of Python's `str.strip()`: drop leading and trailing
whitespace. -/
def pyStrip (s : String) : String :=
  String.mk (((s.data.dropWhile pySpace).reverse.dropWhile pySpace).reverse)

/-- Embedding of `_get_wallet_id` (src/app.py:129-133): the first 32 hex
characters of SHA-256 of `email ++ "-" ++ stripped public key text`. -/
def getWalletId (env : Env) : String :=
  (hexDigest (sha256 (utf8Bytes (env.email ++ "-" ++ pyStrip env.sshPubText)))).take 32

/-- One row of `_list_wallet_secrets`'s result. -/
structure SecretRec where
  secret_name : String
  pfx : String
  truncated : String
  token_type : String
deriving DecidableEq

/-- Embedding of `_list_wallet_secrets` (src/app.py:136-159): probe the
store at the four deterministic names, skip not-found and soft-deleted
entries, and return the live rows with their truncated display. -/
def listWalletSecrets (env : Env) (st : Store) : List SecretRec :=
  let wid := getWalletId env
  tokenTypes.filterMap (fun tp =>
    let name := tp.2 ++ "-" ++ wid
    match describeSecret st name with
    | none => none
    | some e =>
      if e.deleted then none
      else some ⟨name, tp.2, tp.2 ++ "-" ++ wid.take 3 ++ "...", tp.1⟩)

/-- Embedding of `_validate_secret_ownership` (src/app.py:162-168). -/
def validateSecretOwnership (env : Env) (secretName : String) : Bool :=
  let wid := getWalletId env
  tokenTypes.any (fun tp => secretName == tp.2 ++ "-" ++ wid)

/-- Failure modes of the manager operations. -/
inductive OpErr where
  | keyMaterial
  | unknownToken
  | storeFailure
deriving DecidableEq

/-- Embedding of `_create_wallet_secret` (src/app.py:97-126): convert the
SSH identity, recompute the wallet id, name the secret
`prefix ++ "-" ++ wallet_id`, seal the plaintext to the wallet's own
derived public key, and upsert the blob.  The ephemeral key and IV drawn
inside `_encrypt_payload` are the explicit `eph`/`iv` arguments. -/
def createWalletSecret (env : Env) (st : Store) (tokenType plaintext : String)
    (eph iv : Bytes) : Except OpErr (String × Store) :=
  let pubSsh := pyStrip env.sshPubText
  match ed25519ToX25519 env.edPrivRaw env.edPubRaw with
  | none => .error .keyMaterial
  | some (_, xPub) =>
    let wid := (hexDigest (sha256 (utf8Bytes (env.email ++ "-" ++ pubSsh)))).take 32
    match tokenTypes.find? (fun tp => tp.1 == tokenType) with
    | none => .error .unknownToken
    | some tp =>
      let name := tp.2 ++ "-" ++ wid
      let blob := encryptPayload plaintext xPub eph iv
      .ok (name, storeSecret st name blob)

/-- Embedding of `_update_wallet_secret` (src/app.py:171-183): reseal to
the freshly derived public key and overwrite the stored value. -/
def updateWalletSecret (env : Env) (st : Store) (secretName plaintext : String)
    (eph iv : Bytes) : Except OpErr Store :=
  match ed25519ToX25519 env.edPrivRaw env.edPubRaw with
  | none => .error .keyMaterial
  | some (_, xPub) =>
    match putSecretValue st secretName (encryptPayload plaintext xPub eph iv) with
    | some st2 => .ok st2
    | none => .error .storeFailure

/-- Embedding of `_delete_wallet_secret` (src/app.py:186-189). -/
def deleteWalletSecret (st : Store) (secretName : String) : Except OpErr Store :=
  match deleteSecretOp st secretName with
  | some st2 => .ok st2
  | none => .error .storeFailure

/-- The distinct responses of the three POST handlers; constructors mirror
the source's return sites (actions area with a message, actions area with
an error message, the add form with a generic or specific error, the
update form with an error). -/
inductive Resp where
  | actionsOk (msg : String)
  | actionsErr (msg : String)
  | addFormErr
  | addFormErrMsg (msg : String)
  | updateFormErr (name : String)
deriving DecidableEq

/-- Embedding of the `add_key` handler (src/app.py:382-397): reject an
unknown token type, reject a token type already present in the listing,
otherwise create; any manager failure yields the generic add-form error
and leaves the store as received. -/
def addKey (env : Env) (st : Store) (tokenType key : String) (eph iv : Bytes) :
    Store × Resp :=
  if (tokenTypes.find? (fun tp => tp.1 == tokenType)).isNone then (st, .addFormErr)
  else
    let existing := listWalletSecrets env st
    if existing.any (fun r => r.token_type == tokenType) then
      let label := ((tokenLabels.find? (fun tp => tp.1 == tokenType)).map Prod.snd).getD ""
      (st, .addFormErrMsg ("A " ++ label ++ " already exists. Use Update instead."))
    else
      match createWalletSecret env st tokenType key eph iv with
      | .ok (_, st2) => (st2, .actionsOk "Key added successfully.")
      | .error _ => (st, .addFormErr)

/-- Embedding of the `update_key` handler (src/app.py:400-412). -/
def updateKey (env : Env) (st : Store) (secretName key : String) (eph iv : Bytes) :
    Store × Resp :=
  if !validateSecretOwnership env secretName then (st, .updateFormErr secretName)
  else
    match updateWalletSecret env st secretName key eph iv with
    | .ok st2 => (st2, .actionsOk "Key updated successfully.")
    | .error _ => (st, .updateFormErr secretName)

/-- Embedding of the `delete_key` handler (src/app.py:415-423). -/
def deleteKey (env : Env) (st : Store) (secretName : String) : Store × Resp :=
  if !validateSecretOwnership env secretName then
    (st, .actionsErr "Delete failed. Try again.")
  else
    match deleteWalletSecret st secretName with
    | .ok st2 => (st2, .actionsOk "Key deleted successfully.")
    | .error _ => (st, .actionsErr "Delete failed. Try again.")

/-! ## Lemmas about bytes and encodings -/

theorem toLE_length (n x : Nat) : (toLE n x).length = n := by
  induction n generalizing x with
  | zero => rfl
  | succ k ih => simp [toLE, ih]

theorem toLE_allBytes (n x : Nat) : allBytes (toLE n x) := by
  induction n generalizing x with
  | zero => intro b hb; cases hb
  | succ k ih =>
    intro b hb
    simp only [toLE, List.mem_cons] at hb
    rcases hb with h | h
    · subst h; exact Nat.mod_lt _ (by omega)
    · exact ih (x / 256) b h

theorem toBE_length (n x : Nat) : (toBE n x).length = n := by
  simp [toBE, toLE_length]

theorem toBE_allBytes (n x : Nat) : allBytes (toBE n x) := by
  intro b hb
  exact toLE_allBytes n x b (List.mem_reverse.mp hb)

theorem fromLE_cons (x : Nat) (l : Bytes) : fromLE (x :: l) = x + 256 * fromLE l := rfl

theorem fromLE_toLE (n x : Nat) (h : x < 2 ^ (8 * n)) : fromLE (toLE n x) = x := by
  induction n generalizing x with
  | zero => simp only [Nat.mul_zero, pow_zero, Nat.lt_one_iff] at h; simp [h, toLE, fromLE]
  | succ k ih =>
    have hpow : 2 ^ (8 * (k + 1)) = 2 ^ (8 * k) * 256 := by
      rw [Nat.mul_succ, pow_add]; norm_num
    have hx : x / 256 < 2 ^ (8 * k) := by
      rw [Nat.div_lt_iff_lt_mul (by omega)]
      omega
    simp only [toLE, fromLE_cons, ih (x / 256) hx]
    omega

theorem allBytes_append (a b : Bytes) (ha : allBytes a) (hb : allBytes b) :
    allBytes (a ++ b) := by
  intro x hx
  rcases List.mem_append.mp hx with h | h
  · exact ha x h
  · exact hb x h

theorem allBytes_take (a : Bytes) (n : Nat) (ha : allBytes a) : allBytes (a.take n) :=
  fun x hx => ha x (List.mem_of_mem_take hx)

theorem allBytes_drop (a : Bytes) (n : Nat) (ha : allBytes a) : allBytes (a.drop n) :=
  fun x hx => ha x (List.mem_of_mem_drop hx)

theorem allBytes_replicate (n b : Nat) (h : b < 256) : allBytes (List.replicate n b) := by
  intro x hx
  rw [List.eq_of_mem_replicate hx]
  exact h

theorem zipXor_length (a b : Bytes) : (zipXor a b).length = min a.length b.length := by
  simp [zipXor]

theorem zipXor_allBytes (a b : Bytes) (ha : allBytes a) (hb : allBytes b) :
    allBytes (zipXor a b) := by
  induction a generalizing b with
  | nil => intro x hx; simp [zipXor] at hx
  | cons y ys ih =>
    cases b with
    | nil => intro x hx; simp [zipXor] at hx
    | cons z zs =>
      intro x hx
      simp only [zipXor, List.zipWith_cons_cons, List.mem_cons] at hx
      rcases hx with h | h
      · subst h
        have h1 : y < 2 ^ 8 := ha y (by simp)
        have h2 : z < 2 ^ 8 := hb z (by simp)
        have := Nat.xor_lt_two_pow h1 h2
        simpa using this
      · exact ih zs (fun u hu => ha u (by simp [hu])) (fun u hu => hb u (by simp [hu])) x h

theorem zipXor_cancel (a b : Bytes) (h : b.length = a.length) :
    zipXor (zipXor a b) b = a := by
  induction a generalizing b with
  | nil =>
    cases b with
    | nil => rfl
    | cons z zs => simp at h
  | cons y ys ih =>
    cases b with
    | nil => simp at h
    | cons z zs =>
      simp only [zipXor, List.zipWith_cons_cons]
      refine congrArg₂ List.cons ?_ (ih zs (by simpa using h))
      rw [Nat.xor_assoc, Nat.xor_self, Nat.xor_zero]

theorem powModAux_eq (m : Nat) (fuel : Nat) : ∀ b e : Nat, e < 2 ^ fuel →
    powModAux m fuel b e = b ^ e % m := by
  induction fuel with
  | zero =>
    intro b e h
    simp only [pow_zero, Nat.lt_one_iff] at h
    subst h
    simp [powModAux]
  | succ k ih =>
    intro b e h
    by_cases h0 : e = 0
    · simp [powModAux, h0]
    · simp only [powModAux, if_neg h0]
      have hdiv : e / 2 < 2 ^ k := by
        rw [pow_succ] at h
        omega
      have hr : powModAux m k (b * b % m) (e / 2) = (b * b) ^ (e / 2) % m := by
        rw [ih _ _ hdiv, ← Nat.pow_mod]
      have hbb : (b * b) ^ (e / 2) = b ^ (2 * (e / 2)) := by
        rw [← pow_two, ← pow_mul]
      by_cases hodd : e % 2 = 1
      · have he : 2 * (e / 2) + 1 = e := by omega
        rw [if_pos hodd]
        rw [hr, hbb, Nat.mul_mod, Nat.mod_mod_of_dvd _ (dvd_refl m), ← Nat.mul_mod]
        rw [Nat.mul_mod, Nat.mod_mod_of_dvd _ (dvd_refl m), ← Nat.mul_mod]
        rw [← pow_succ, he]
      · have he : 2 * (e / 2) = e := by omega
        rw [if_neg hodd]
        rw [hr, hbb, he]

theorem powMod_eq (m b e : Nat) : powMod m b e = b ^ e % m := by
  unfold powMod
  refine powModAux_eq m (e + 1) b e ?_
  have h1 : e < 2 ^ e := Nat.lt_two_pow e
  have h2 : 2 ^ e ≤ 2 ^ (e + 1) := Nat.pow_le_pow_right (by omega) (by omega)
  omega

theorem powMod_lt (m b e : Nat) (hm : 0 < m) : powMod m b e < m := by
  rw [powMod_eq]
  exact Nat.mod_lt _ hm

/-! ## Lemmas about the hash functions and HKDF -/

theorem sha256_length (msg : Bytes) : (sha256 msg).length = 32 := by
  simp [sha256, toBE_length]

theorem sha256_allBytes (msg : Bytes) : allBytes (sha256 msg) := by
  unfold sha256
  refine allBytes_append _ _ (allBytes_append _ _ (allBytes_append _ _ (allBytes_append _ _
    (allBytes_append _ _ (allBytes_append _ _ (allBytes_append _ _ (toBE_allBytes _ _)
      (toBE_allBytes _ _)) (toBE_allBytes _ _)) (toBE_allBytes _ _)) (toBE_allBytes _ _))
      (toBE_allBytes _ _)) (toBE_allBytes _ _)) (toBE_allBytes _ _)

theorem sha512_length (msg : Bytes) : (sha512 msg).length = 64 := by
  simp [sha512, toBE_length]

theorem hmacSha256_length (key msg : Bytes) : (hmacSha256 key msg).length = 32 :=
  sha256_length _

theorem hmacSha256_allBytes (key msg : Bytes) : allBytes (hmacSha256 key msg) :=
  sha256_allBytes _

theorem hkdfBlocks_length (prk info : Bytes) (n i : Nat) (prevT : Bytes) :
    (hkdfBlocks prk info n i prevT).length = 32 * n := by
  induction n generalizing i prevT with
  | zero => rfl
  | succ k ih =>
    simp only [hkdfBlocks, List.length_append, hmacSha256_length, ih]
    ring

theorem hkdfBlocks_allBytes (prk info : Bytes) (n i : Nat) (prevT : Bytes) :
    allBytes (hkdfBlocks prk info n i prevT) := by
  induction n generalizing i prevT with
  | zero => intro x hx; cases hx
  | succ k ih =>
    exact allBytes_append _ _ (hmacSha256_allBytes _ _) (ih _ _)

theorem hkdfSha256_length (salt info : Bytes) (L : Nat) (ikm : Bytes) :
    (hkdfSha256 salt info L ikm).length = L := by
  simp only [hkdfSha256, List.length_take, hkdfBlocks_length]
  omega

theorem deriveKey_length (s : Bytes) : (deriveKey s).length = 32 :=
  hkdfSha256_length _ _ _ _

theorem deriveKey_allBytes (s : Bytes) : allBytes (deriveKey s) :=
  fun x hx => hkdfBlocks_allBytes _ _ _ _ _ x (List.mem_of_mem_take hx)

/-! ## Lemmas about the X25519 model -/

theorem p25519_pos : 0 < p25519 := by
  have h : 2 ^ 5 ≤ 2 ^ 255 := Nat.pow_le_pow_right (by omega) (by omega)
  unfold p25519
  omega

theorem p25519_lt : p25519 < 2 ^ 255 := by
  have h : 2 ^ 5 ≤ 2 ^ 255 := Nat.pow_le_pow_right (by omega) (by omega)
  unfold p25519
  omega

theorem maskPoint_toLE32 (x : Nat) (h : x < 2 ^ 255) : maskPoint (toLE 32 x) = x := by
  unfold maskPoint
  have h256 : x < 2 ^ (8 * 32) := lt_trans h (Nat.pow_lt_pow_right (by omega) (by omega))
  rw [fromLE_toLE 32 x h256]
  exact Nat.and_pow_two_sub_one_of_lt_two_pow h

theorem x25519Exchange_eq (a b : Bytes) :
    x25519Exchange a b = toLE 32 (maskPoint b ^ fromLE (clampBytes a) % p25519) := by
  unfold x25519Exchange
  rw [powMod_eq]

/-- The Diffie-Hellman contract of the modelled primitive. -/
theorem x25519_dh_comm (a b : Bytes) :
    x25519Exchange a (x25519PubOf b) = x25519Exchange b (x25519PubOf a) := by
  unfold x25519PubOf
  rw [x25519Exchange_eq a, x25519Exchange_eq b, x25519Exchange_eq a, x25519Exchange_eq b]
  rw [maskPoint_toLE32 _ (lt_of_lt_of_le (Nat.mod_lt _ p25519_pos) (le_of_lt p25519_lt)),
    maskPoint_toLE32 _ (lt_of_lt_of_le (Nat.mod_lt _ p25519_pos) (le_of_lt p25519_lt))]
  rw [← Nat.pow_mod, ← Nat.pow_mod, ← pow_mul, ← pow_mul, Nat.mul_comm]

theorem clampBytes_length (b : Bytes) : (clampBytes b).length = b.length := by
  simp [clampBytes]

/-- `xgcdFuel` computes the gcd together with a Bezout identity, given
enough fuel. -/
theorem xgcdFuel_spec (fuel : Nat) : ∀ a b : Nat, b < fuel →
    (xgcdFuel fuel a b).1 = Nat.gcd a b ∧
    ((xgcdFuel fuel a b).1 : Int) =
      a * (xgcdFuel fuel a b).2.1 + b * (xgcdFuel fuel a b).2.2 := by
  induction fuel with
  | zero => intro a b h; omega
  | succ k ih =>
    intro a b hb
    by_cases h0 : b = 0
    · subst h0
      simp [xgcdFuel]
    · have hblt : a % b < k := by
        have := Nat.mod_lt a (Nat.pos_of_ne_zero h0)
        omega
      obtain ⟨hg, hbez⟩ := ih b (a % b) hblt
      rcases he : xgcdFuel k b (a % b) with ⟨g, x, y⟩
      rw [he] at hg hbez
      simp only [xgcdFuel, if_neg h0, he]
      dsimp only at hg hbez ⊢
      constructor
      · rw [hg, Nat.gcd_comm b (a % b), ← Nat.gcd_rec b a, Nat.gcd_comm b a]
      · have hmd : ((a % b : Nat) : Int) = (a : Int) - (b : Int) * ((a / b : Nat) : Int) := by
          have h := Nat.mod_add_div a b
          have h2 : ((a % b : Nat) : Int) + (b : Int) * ((a / b : Nat) : Int) = (a : Int) := by
            exact_mod_cast h
          linarith
        rw [hmd] at hbez
        rw [hbez]
        ring

/-- Success-path characterization of the conversion: the private scalar is
the clamped SHA-512 prefix, and the public side encodes the value `u` with
`(1 - y) * u ≡ 1 + y (mod p)`, i.e. `u = (1 + y) / (1 - y)` in the field. -/
theorem ed25519ToX25519_spec (edPriv edPub sk pk : Bytes)
    (h : ed25519ToX25519 edPriv edPub = some (sk, pk)) :
    sk = clampBytes ((sha512 edPriv).take 32) ∧ sk.length = 32 ∧
    ∃ u : Nat, u < p25519 ∧ pk = toLE 32 u ∧
      Int.ModEq (p25519 : Int)
        ((1 - ((fromLE edPub &&& (2 ^ 255 - 1) : Nat) : Int)) * u)
        (1 + ((fromLE edPub &&& (2 ^ 255 - 1) : Nat) : Int)) := by
  have hp : (0 : Int) < (p25519 : Int) := by exact_mod_cast p25519_pos
  have hpne : (p25519 : Int) ≠ 0 := ne_of_gt hp
  set y : Int := ((fromLE edPub &&& (2 ^ 255 - 1) : Nat) : Int) with hy
  have hdef : ed25519ToX25519 edPriv edPub =
      match intInvMod (1 - y) p25519 with
      | none => none
      | some inv => some (clampBytes ((sha512 edPriv).take 32),
          toLE 32 ((((1 + y) * (inv : Int)) % ((p25519 : Nat) : Int)).toNat)) := by
    rw [hy]; rfl
  rw [hdef] at h
  cases hi : intInvMod (1 - y) p25519 with
  | none => rw [hi] at h; cases h
  | some inv =>
    rw [hi] at h
    simp only [Option.some.injEq, Prod.mk.injEq] at h
    obtain ⟨hsk, hpk⟩ := h
    subst hsk
    refine ⟨rfl, ?_, ?_⟩
    · rw [clampBytes_length, List.length_take, sha512_length]
      simp
    · unfold intInvMod at hi
      set r : Nat := ((1 - y) % (p25519 : Int)).toNat with hrdef
      set G := xgcdFuel (p25519 + 1) r p25519 with hGdef
      obtain ⟨hGg, hGbez⟩ := xgcdFuel_spec (p25519 + 1) r p25519 (by omega)
      rw [← hGdef] at hGg hGbez
      by_cases hgcd : G.1 = 1
      · rw [if_pos hgcd] at hi
        injection hi with hinv
        set u : Nat := (((1 + y) * ((G.2.1 % (p25519 : Int)).toNat : Int)) %
          (p25519 : Int)).toNat with hudef
        refine ⟨u, ?_, ?_, ?_⟩
        · have hnn : 0 ≤ ((1 + y) * ((G.2.1 % (p25519 : Int)).toNat : Int)) %
              (p25519 : Int) := Int.emod_nonneg _ hpne
          have hlt : ((1 + y) * ((G.2.1 % (p25519 : Int)).toNat : Int)) %
              (p25519 : Int) < (p25519 : Int) := Int.emod_lt_of_pos _ hp
          omega
        · rw [← hpk, ← hinv]
        · -- the congruence (1 - y) * u = 1 + y mod p
          have hrc : ((r : Int)) = (1 - y) % (p25519 : Int) :=
            Int.toNat_of_nonneg (Int.emod_nonneg _ hpne)
          have hic : (((G.2.1 % (p25519 : Int)).toNat : Int)) = G.2.1 % (p25519 : Int) :=
            Int.toNat_of_nonneg (Int.emod_nonneg _ hpne)
          have huc : ((u : Int)) = ((1 + y) * ((G.2.1 % (p25519 : Int)).toNat : Int)) %
              (p25519 : Int) :=
            Int.toNat_of_nonneg (Int.emod_nonneg _ hpne)
          have hmodid : ∀ x : Int, Int.ModEq (p25519 : Int) (x % (p25519 : Int)) x :=
            fun x => Int.emod_emod_of_dvd x dvd_rfl
          have e1 : Int.ModEq (p25519 : Int) (u : Int)
              ((1 + y) * ((G.2.1 % (p25519 : Int)).toNat : Int)) := by
            rw [huc]; exact hmodid _
          have e4 : Int.ModEq (p25519 : Int) (1 - y) (r : Int) := by
            rw [hrc]; exact (hmodid _).symm
          have e5 : Int.ModEq (p25519 : Int) (((G.2.1 % (p25519 : Int)).toNat : Int)) G.2.1 := by
            rw [hic]; exact hmodid _
          rw [hgcd] at hGbez
          have e7 : Int.ModEq (p25519 : Int) ((r : Int) * G.2.1) 1 := by
            rw [Int.modEq_iff_dvd]
            exact ⟨G.2.2, by push_cast at hGbez ⊢; linarith⟩
          have e2 : Int.ModEq (p25519 : Int) ((1 - y) * (u : Int))
              ((1 - y) * ((1 + y) * ((G.2.1 % (p25519 : Int)).toNat : Int))) :=
            Int.ModEq.mul (Int.ModEq.refl _) e1
          have e3 : Int.ModEq (p25519 : Int)
              ((1 - y) * ((1 + y) * ((G.2.1 % (p25519 : Int)).toNat : Int)))
              (((r : Int) * G.2.1) * (1 + y)) := by
            have hmm := Int.ModEq.mul (Int.ModEq.mul e4 e5) (Int.ModEq.refl (1 + y))
            calc (1 - y) * ((1 + y) * ((G.2.1 % (p25519 : Int)).toNat : Int))
                = ((1 - y) * ((G.2.1 % (p25519 : Int)).toNat : Int)) * (1 + y) := by
                  ring
              _ ≡ (((r : Int) * G.2.1) * (1 + y)) [ZMOD (p25519 : Int)] := hmm
          have e8 : Int.ModEq (p25519 : Int) (((r : Int) * G.2.1) * (1 + y))
              (1 * (1 + y)) := Int.ModEq.mul e7 (Int.ModEq.refl _)
          have : Int.ModEq (p25519 : Int) ((1 - y) * (u : Int)) (1 * (1 + y)) :=
            ((e2.trans e3).trans e8)
          simpa using this
      · rw [if_neg hgcd] at hi
        cases hi

/-- Failure path of the conversion: when `1 - y` is divisible by `p`, the
Python `pow(1 - y, -1, p)` raises, modelled as `none`. -/
theorem ed25519ToX25519_degenerate (edPriv edPub : Bytes)
    (hdeg : ((1 : Int) - ((fromLE edPub &&& (2 ^ 255 - 1) : Nat) : Int)) % (p25519 : Int) = 0) :
    ed25519ToX25519 edPriv edPub = none := by
  have hpne1 : p25519 ≠ 1 := by
    have h : 2 ^ 5 ≤ 2 ^ 255 := Nat.pow_le_pow_right (by omega) (by omega)
    unfold p25519
    omega
  have hinv : intInvMod (1 - ((fromLE edPub &&& (2 ^ 255 - 1) : Nat) : Int)) p25519 = none := by
    have hspec := (xgcdFuel_spec (p25519 + 1) 0 p25519 (by omega)).1
    rw [Nat.gcd_zero_left] at hspec
    simp only [intInvMod, hdeg, Int.toNat_zero, hspec]
    rw [if_neg hpne1]
  have hdef : ed25519ToX25519 edPriv edPub =
      match intInvMod (1 - ((fromLE edPub &&& (2 ^ 255 - 1) : Nat) : Int)) p25519 with
      | none => none
      | some inv => some (clampBytes ((sha512 edPriv).take 32),
          toLE 32 ((((1 + ((fromLE edPub &&& (2 ^ 255 - 1) : Nat) : Int)) * (inv : Int)) %
            ((p25519 : Nat) : Int)).toNat)) := rfl
  rw [hdef, hinv]

/-! ## Lemmas about AES-256-GCM -/

theorem xor8 (a b : Nat) (ha : a < 256) (hb : b < 256) : a ^^^ b < 256 := by
  have h := @Nat.xor_lt_two_pow a b 8 (by simpa using ha) (by simpa using hb)
  simpa using h

theorem getD_lt (l : Bytes) (i d : Nat) (hl : allBytes l) (hd : d < 256) : l.getD i d < 256 := by
  rw [List.getD_eq_getElem?_getD]
  cases h : l[i]? with
  | none => simpa using hd
  | some v =>
    have hv : v ∈ l := List.getElem?_mem h
    simpa using hl v hv

theorem getD_mem_of_lt {α : Type} (l : List α) (i : Nat) (d : α) (h : i < l.length) :
    l.getD i d ∈ l := by
  rw [List.getD_eq_getElem l d h]
  exact List.getElem_mem h

set_option maxRecDepth 4096 in
theorem sbox_allBytes : allBytes sbox := by decide

theorem sb_lt (x : Nat) : sb x < 256 := getD_lt sbox x 0 sbox_allBytes (by omega)

theorem xtime_lt (x : Nat) : xtime x < 256 := Nat.mod_lt _ (by omega)

/-- Well-formed key-schedule word: four bytes. -/
def goodWord (w : Bytes) : Prop := w.length = 4 ∧ allBytes w

theorem zipXor_good (a b : Bytes) (ha : goodWord a) (hb : goodWord b) :
    goodWord (zipXor a b) := by
  refine ⟨?_, zipXor_allBytes a b ha.2 hb.2⟩
  rw [zipXor_length, ha.1, hb.1]
  simp

theorem nextKeyWord_good (ws : List Bytes) (h8 : 8 ≤ ws.length)
    (hg : ∀ w ∈ ws, goodWord w) : goodWord (nextKeyWord ws ws.length) := by
  have hpg := hg _ (getD_mem_of_lt ws (ws.length - 1) [] (by omega))
  have hp8 := hg _ (getD_mem_of_lt ws (ws.length - 8) [] (by omega))
  unfold nextKeyWord
  set prev := ws.getD (ws.length - 1) [] with hprev
  have hrot : ((prev.drop 1 ++ prev.take 1).map sb).length = 4 := by
    have hp4 : prev.length = 4 := hpg.1
    simp only [List.length_map, List.length_append, List.length_drop, List.length_take, hp4]
    omega
  have hrotB : allBytes ((prev.drop 1 ++ prev.take 1).map sb) := by
    intro x hx
    rcases List.mem_map.mp hx with ⟨z, _, rfl⟩
    exact sb_lt z
  have ht : goodWord (if ws.length % 8 = 0 then
      match (prev.drop 1 ++ prev.take 1).map sb with
      | x :: xs => (x ^^^ rcon.getD (ws.length / 8 - 1) 0) :: xs
      | [] => []
    else if ws.length % 8 = 4 then prev.map sb
    else prev) := by
    by_cases h0 : ws.length % 8 = 0
    · rw [if_pos h0]
      obtain ⟨x, xs, hm⟩ : ∃ x xs, (prev.drop 1 ++ prev.take 1).map sb = x :: xs := by
        cases hc : (prev.drop 1 ++ prev.take 1).map sb with
        | nil => rw [hc] at hrot; simp at hrot
        | cons x xs => exact ⟨x, xs, rfl⟩
      rw [hm]
      constructor
      · have := hrot
        rw [hm] at this
        simpa using this
      · intro z hz
        rcases List.mem_cons.mp hz with h | h
        · subst h
          refine xor8 _ _ ?_ (getD_lt rcon _ 0 (by decide) (by omega))
          exact hrotB x (by rw [hm]; simp)
        · exact hrotB z (by rw [hm]; simp [h])
    · rw [if_neg h0]
      by_cases h4 : ws.length % 8 = 4
      · rw [if_pos h4]
        refine ⟨by simp [List.length_map, hpg.1], ?_⟩
        intro x hx
        rcases List.mem_map.mp hx with ⟨z, _, rfl⟩
        exact sb_lt z
      · rw [if_neg h4]
        exact hpg
  exact zipXor_good _ _ hp8 ht

theorem expandWords_length (k : Nat) (ws : List Bytes) :
    (expandWords k ws).length = ws.length + k := by
  induction k generalizing ws with
  | zero => rfl
  | succ n ih =>
    rw [expandWords, ih]
    simp only [List.length_append, List.length_cons, List.length_nil]
    omega

theorem expandWords_good (k : Nat) (ws : List Bytes) (h8 : 8 ≤ ws.length)
    (hg : ∀ w ∈ ws, goodWord w) : ∀ w ∈ expandWords k ws, goodWord w := by
  induction k generalizing ws with
  | zero => exact hg
  | succ n ih =>
    refine ih _ (by simp only [List.length_append, List.length_cons, List.length_nil]; omega) ?_
    intro w hw
    rcases List.mem_append.mp hw with h | h
    · exact hg w h
    · rw [List.mem_singleton.mp h]
      exact nextKeyWord_good ws h8 hg

theorem keyExpansion_length (key : Bytes) : (keyExpansion key).length = 60 := by
  rw [keyExpansion, expandWords_length]
  simp

theorem keyExpansion_good (key : Bytes) (hk : key.length = 32) (hkb : allBytes key) :
    ∀ w ∈ keyExpansion key, goodWord w := by
  refine expandWords_good 52 _ (by simp) ?_
  intro w hw
  rcases List.mem_map.mp hw with ⟨i, hi, rfl⟩
  have hi8 : i < 8 := List.mem_range.mp hi
  constructor
  · simp only [List.length_take, List.length_drop, hk]
    omega
  · exact allBytes_take _ _ (allBytes_drop _ _ hkb)

theorem flatten_words (l : List Bytes) (h : ∀ w ∈ l, goodWord w) :
    l.flatten.length = 4 * l.length ∧ allBytes l.flatten := by
  induction l with
  | nil => exact ⟨rfl, fun x hx => by cases hx⟩
  | cons w ws ih =>
    have hw := h w (by simp)
    have hws := ih (fun u hu => h u (by simp [hu]))
    constructor
    · simp only [List.flatten_cons, List.length_append, hw.1, hws.1, List.length_cons]
      ring
    · exact allBytes_append _ _ hw.2 hws.2

theorem roundKey_good (key : Bytes) (r : Nat) (hk : key.length = 32) (hkb : allBytes key)
    (hr : r ≤ 14) : (roundKey (keyExpansion key) r).length = 16 ∧
      allBytes (roundKey (keyExpansion key) r) := by
  unfold roundKey
  have hgood : ∀ w ∈ ((keyExpansion key).drop (4 * r)).take 4, goodWord w := by
    intro w hw
    exact keyExpansion_good key hk hkb w (List.mem_of_mem_drop (List.mem_of_mem_take hw))
  have hlen : (((keyExpansion key).drop (4 * r)).take 4).length = 4 := by
    simp only [List.length_take, List.length_drop, keyExpansion_length]
    omega
  have := flatten_words _ hgood
  rw [hlen] at this
  exact this

theorem subBytes_good (s : Bytes) :
    (subBytesOp s).length = s.length ∧ allBytes (subBytesOp s) := by
  refine ⟨List.length_map _ _, ?_⟩
  intro x hx
  rcases List.mem_map.mp hx with ⟨z, _, rfl⟩
  exact sb_lt z

theorem shiftRows_good (s : Bytes) (hs : allBytes s) :
    (shiftRowsOp s).length = 16 ∧ allBytes (shiftRowsOp s) := by
  constructor
  · simp [shiftRowsOp, shiftRowsIdx]
  · intro x hx
    rcases List.mem_map.mp hx with ⟨i, _, rfl⟩
    exact getD_lt s i 0 hs (by omega)

theorem mixCol_good (a0 a1 a2 a3 : Nat) (h0 : a0 < 256) (h1 : a1 < 256) (h2 : a2 < 256)
    (h3 : a3 < 256) : (mixCol a0 a1 a2 a3).length = 4 ∧ allBytes (mixCol a0 a1 a2 a3) := by
  refine ⟨rfl, ?_⟩
  intro x hx
  simp only [mixCol, List.mem_cons, List.not_mem_nil, or_false] at hx
  rcases hx with h | h | h | h <;> subst h
  · exact xor8 _ _ (xor8 _ _ (xor8 _ _ (xtime_lt _) (xor8 _ _ (xtime_lt _) h1)) h2) h3
  · exact xor8 _ _ (xor8 _ _ (xor8 _ _ h0 (xtime_lt _)) (xor8 _ _ (xtime_lt _) h2)) h3
  · exact xor8 _ _ (xor8 _ _ (xor8 _ _ h0 h1) (xtime_lt _)) (xor8 _ _ (xtime_lt _) h3)
  · exact xor8 _ _ (xor8 _ _ (xor8 _ _ (xor8 _ _ (xtime_lt _) h0) h1) h2) (xtime_lt _)

theorem mixColumns_good (s : Bytes) (hs : allBytes s) :
    (mixColumnsOp s).length = 16 ∧ allBytes (mixColumnsOp s) := by
  have hr : List.range 4 = [0, 1, 2, 3] := rfl
  unfold mixColumnsOp
  rw [hr]
  simp only [List.flatMap_cons, List.flatMap_nil, List.append_nil]
  have g : ∀ c : Nat, (mixCol (s.getD (4 * c) 0) (s.getD (4 * c + 1) 0) (s.getD (4 * c + 2) 0)
      (s.getD (4 * c + 3) 0)).length = 4 ∧ allBytes (mixCol (s.getD (4 * c) 0)
      (s.getD (4 * c + 1) 0) (s.getD (4 * c + 2) 0) (s.getD (4 * c + 3) 0)) :=
    fun c => mixCol_good _ _ _ _ (getD_lt s _ 0 hs (by omega)) (getD_lt s _ 0 hs (by omega))
      (getD_lt s _ 0 hs (by omega)) (getD_lt s _ 0 hs (by omega))
  constructor
  · simp only [List.length_append, (g 0).1, (g 1).1, (g 2).1, (g 3).1]
  · exact allBytes_append _ _ (g 0).2 (allBytes_append _ _ (g 1).2
      (allBytes_append _ _ (g 2).2 (g 3).2))

theorem aesRound_good (key : Bytes) (s : Bytes) (r : Nat) (hk : key.length = 32)
    (hkb : allBytes key) (hr : r ≤ 14) (hs : allBytes s) :
    (aesRound (keyExpansion key) s r).length = 16 ∧
      allBytes (aesRound (keyExpansion key) s r) := by
  have hrk := roundKey_good key r hk hkb hr
  have hsb := subBytes_good s
  have hsr := shiftRows_good (subBytesOp s) hsb.2
  have hmc := mixColumns_good (shiftRowsOp (subBytesOp s)) hsr.2
  unfold aesRound
  constructor
  · rw [zipXor_length, hmc.1, hrk.1]
    simp
  · exact zipXor_allBytes _ _ hmc.2 hrk.2

theorem aes256Block_good (key block : Bytes) (hk : key.length = 32) (hkb : allBytes key)
    (hb : block.length = 16) (hbb : allBytes block) :
    (aes256Block key block).length = 16 ∧ allBytes (aes256Block key block) := by
  have hrk0 := roundKey_good key 0 hk hkb (by omega)
  have hs0len : (zipXor block (roundKey (keyExpansion key) 0)).length = 16 := by
    rw [zipXor_length, hb, hrk0.1]
    simp
  have hs0b : allBytes (zipXor block (roundKey (keyExpansion key) 0)) :=
    zipXor_allBytes _ _ hbb hrk0.2
  have hfold : ∀ (l : List Nat), (∀ i ∈ l, i + 1 ≤ 14) →
      ∀ s : Bytes, s.length = 16 → allBytes s →
      (l.foldl (fun s i => aesRound (keyExpansion key) s (i + 1)) s).length = 16 ∧
        allBytes (l.foldl (fun s i => aesRound (keyExpansion key) s (i + 1)) s) := by
    intro l
    induction l with
    | nil => intro _ s h1 h2; exact ⟨h1, h2⟩
    | cons i is ih =>
      intro hmem s h1 h2
      have hstep := aesRound_good key s (i + 1) hk hkb (hmem i (List.mem_cons_self i is)) h2
      rw [List.foldl_cons]
      exact ih (fun j hj => hmem j (List.mem_cons_of_mem i hj)) _ hstep.1 hstep.2
  have hmain := hfold (List.range 13) (fun i hi => by
    have := List.mem_range.mp hi
    omega) _ hs0len hs0b
  have hrk14 := roundKey_good key 14 hk hkb (by omega)
  have hsb := subBytes_good ((List.range 13).foldl
    (fun s i => aesRound (keyExpansion key) s (i + 1))
    (zipXor block (roundKey (keyExpansion key) 0)))
  have hsr := shiftRows_good _ hsb.2
  unfold aes256Block
  constructor
  · rw [zipXor_length, hsr.1, hrk14.1]
    simp
  · exact zipXor_allBytes _ _ hsr.2 hrk14.2

theorem keystreamAux_good (key iv : Bytes) (hk : key.length = 32) (hkb : allBytes key)
    (hiv : iv.length = 12) (hib : allBytes iv) (fuel : Nat) : ∀ n c : Nat, n ≤ fuel →
    (keystreamAux key iv fuel c n).length = n ∧ allBytes (keystreamAux key iv fuel c n) := by
  induction fuel with
  | zero =>
    intro n c hn
    have : n = 0 := by omega
    subst this
    exact ⟨rfl, fun x hx => by cases hx⟩
  | succ k ih =>
    intro n c hn
    by_cases h : n = 0
    · subst h
      simp only [keystreamAux, if_pos rfl]
      exact ⟨rfl, fun x hx => by cases hx⟩
    · simp only [keystreamAux, if_neg h]
      have hblock := aes256Block_good key (iv ++ toBE 4 c) hk hkb
        (by simp [List.length_append, hiv, toBE_length])
        (allBytes_append _ _ hib (toBE_allBytes _ _))
      have hrec := ih (n - 16) (c + 1) (by omega)
      constructor
      · simp only [List.length_append, List.length_take, hblock.1, hrec.1]
        omega
      · exact allBytes_append _ _ (allBytes_take _ _ hblock.2) hrec.2

theorem keystream_good (key iv : Bytes) (hk : key.length = 32) (hkb : allBytes key)
    (hiv : iv.length = 12) (hib : allBytes iv) (n c : Nat) :
    (keystream key iv c n).length = n ∧ allBytes (keystream key iv c n) :=
  keystreamAux_good key iv hk hkb hiv hib n n c (le_refl n)

theorem gcmTag_good (key iv ct : Bytes) (hk : key.length = 32) (hkb : allBytes key)
    (hiv : iv.length = 12) (hib : allBytes iv) :
    (gcmTag key iv ct).length = 16 ∧ allBytes (gcmTag key iv ct) := by
  have hblock := aes256Block_good key (iv ++ toBE 4 1) hk hkb
    (by simp [List.length_append, hiv, toBE_length])
    (allBytes_append _ _ hib (toBE_allBytes _ _))
  unfold gcmTag
  constructor
  · rw [zipXor_length, toBE_length, hblock.1]
    simp
  · exact zipXor_allBytes _ _ (toBE_allBytes _ _) hblock.2

theorem gcmDecrypt_of_tag_eq (key iv ct tag : Bytes) (h : gcmTag key iv ct = tag) :
    gcmDecrypt key iv ct tag = some (zipXor ct (keystream key iv 2 ct.length)) := by
  unfold gcmDecrypt
  split
  · rfl
  · next hcond => exact absurd h hcond

theorem gcmCipher_length (key iv pt : Bytes) (hk : key.length = 32) (hkb : allBytes key)
    (hiv : iv.length = 12) (hib : allBytes iv) :
    (gcmCipher key iv pt).length = pt.length := by
  have hks := keystream_good key iv hk hkb hiv hib pt.length 2
  unfold gcmCipher
  rw [zipXor_length, hks.1]
  omega

theorem gcm_roundtrip (key iv pt : Bytes) (hk : key.length = 32) (hkb : allBytes key)
    (hiv : iv.length = 12) (hib : allBytes iv) :
    gcmDecrypt key iv (gcmCipher key iv pt) (gcmTag key iv (gcmCipher key iv pt)) = some pt := by
  have hks := keystream_good key iv hk hkb hiv hib pt.length 2
  rw [gcmDecrypt_of_tag_eq _ _ _ _ rfl,
    gcmCipher_length key iv pt hk hkb hiv hib]
  unfold gcmCipher
  exact congrArg some (zipXor_cancel pt _ (by rw [hks.1]))

/-! ## Lemmas about base64 -/

set_option maxRecDepth 8192 in
theorem b64_char_round : ∀ k, k < 64 → b64IndexOf (b64CharOf k) = some k := by decide

set_option maxRecDepth 8192 in
theorem b64_char_ne_pad : ∀ k, k < 64 → b64CharOf k ≠ '=' := by decide

theorem b64_roundtrip_chars : ∀ l : Bytes, allBytes l →
    b64DecodeChars (b64EncodeChars l) = some l := by
  intro l
  induction l using b64EncodeChars.induct with
  | case1 => intro _; rfl
  | case2 a =>
    intro hl
    have ha : a < 256 := hl a (by simp)
    have h1 : a / 4 * 4 + a % 4 * 16 / 16 = a := by omega
    simp only [b64EncodeChars, b64DecodeChars]
    rw [b64_char_round (a / 4) (by omega), b64_char_round (a % 4 * 16) (by omega)]
    simp [h1]
    all_goals omega
  | case3 a b =>
    intro hl
    have ha : a < 256 := hl a (by simp)
    have hb : b < 256 := hl b (by simp)
    have h1 : a / 4 * 4 + (a % 4 * 16 + b / 16) / 16 = a := by omega
    have h2 : (a % 4 * 16 + b / 16) % 16 * 16 + b % 16 * 4 / 4 = b := by omega
    have hne : b64CharOf (b % 16 * 4) ≠ '=' := b64_char_ne_pad _ (by omega)
    simp only [b64EncodeChars, b64DecodeChars]
    rw [b64_char_round (a / 4) (by omega),
      b64_char_round (a % 4 * 16 + b / 16) (by omega)]
    simp [hne, b64_char_round (b % 16 * 4) (by omega), h1, h2]
    all_goals omega
  | case4 a b c rest ih =>
    intro hl
    have ha : a < 256 := hl a (by simp)
    have hb : b < 256 := hl b (by simp)
    have hc : c < 256 := hl c (by simp)
    have hrest : allBytes rest := fun x hx => hl x (by simp [hx])
    have h1 : a / 4 * 4 + (a % 4 * 16 + b / 16) / 16 = a := by omega
    have h2 : (a % 4 * 16 + b / 16) % 16 * 16 + (b % 16 * 4 + c / 64) / 4 = b := by omega
    have h3 : (b % 16 * 4 + c / 64) % 4 * 64 + c % 64 = c := by omega
    have hne3 : b64CharOf (b % 16 * 4 + c / 64) ≠ '=' := b64_char_ne_pad _ (by omega)
    have hne4 : b64CharOf (c % 64) ≠ '=' := b64_char_ne_pad _ (by omega)
    simp only [b64EncodeChars, b64DecodeChars]
    rw [b64_char_round (a / 4) (by omega),
      b64_char_round (a % 4 * 16 + b / 16) (by omega)]
    simp [hne3, hne4, b64_char_round (b % 16 * 4 + c / 64) (by omega),
      b64_char_round (c % 64) (by omega), ih hrest, h1, h2, h3]

theorem b64_roundtrip (l : Bytes) (hl : allBytes l) : b64Decode (b64Encode l) = some l :=
  b64_roundtrip_chars l hl

/-! ## Lemmas about the sealed payload -/

theorem char_toNat_lt (c : Char) : c.toNat < 1114112 := by
  rcases c.valid with h | ⟨h1, h2⟩
  · exact lt_trans h (by norm_num)
  · exact h2

theorem utf8Char_allBytes (c : Char) : allBytes (utf8Char c) := by
  have hc := char_toNat_lt c
  unfold utf8Char
  by_cases h1 : c.toNat < 128
  · rw [if_pos h1]
    intro x hx
    simp only [List.mem_singleton] at hx
    omega
  · rw [if_neg h1]
    by_cases h2 : c.toNat < 2048
    · rw [if_pos h2]
      intro x hx
      simp only [List.mem_cons, List.not_mem_nil, or_false] at hx
      rcases hx with h | h <;> omega
    · rw [if_neg h2]
      by_cases h3 : c.toNat < 65536
      · rw [if_pos h3]
        intro x hx
        simp only [List.mem_cons, List.not_mem_nil, or_false] at hx
        rcases hx with h | h | h <;> omega
      · rw [if_neg h3]
        intro x hx
        simp only [List.mem_cons, List.not_mem_nil, or_false] at hx
        rcases hx with h | h | h | h <;> omega

theorem utf8Bytes_allBytes (s : String) : allBytes (utf8Bytes s) := by
  intro x hx
  unfold utf8Bytes at hx
  rcases List.mem_flatMap.mp hx with ⟨c, _, hc⟩
  exact utf8Char_allBytes c x hc

theorem x25519PubOf_length (b : Bytes) : (x25519PubOf b).length = 32 := toLE_length _ _

theorem x25519PubOf_allBytes (b : Bytes) : allBytes (x25519PubOf b) := toLE_allBytes _ _

theorem gcmCipher_allBytes (key iv pt : Bytes) (hk : key.length = 32) (hkb : allBytes key)
    (hiv : iv.length = 12) (hib : allBytes iv) (hptb : allBytes pt) :
    allBytes (gcmCipher key iv pt) :=
  zipXor_allBytes _ _ hptb (keystream_good key iv hk hkb hiv hib pt.length 2).2

/-- The sealed payload before base64, spelled out. -/
def sealBytes (pt : String) (peerPub eph iv : Bytes) : Bytes :=
  iv ++ (x25519PubOf eph ++
    (gcmTag (deriveKey (x25519Exchange eph peerPub)) iv
      (gcmCipher (deriveKey (x25519Exchange eph peerPub)) iv (utf8Bytes pt)) ++
    gcmCipher (deriveKey (x25519Exchange eph peerPub)) iv (utf8Bytes pt)))

theorem encryptPayload_def (pt : String) (peerPub eph iv : Bytes) :
    encryptPayload pt peerPub eph iv = b64Encode (sealBytes pt peerPub eph iv) := by
  simp only [encryptPayload, sealBytes, List.append_assoc]

theorem sealBytes_allBytes (pt : String) (peerPub eph iv : Bytes)
    (hiv : iv.length = 12) (hib : allBytes iv) : allBytes (sealBytes pt peerPub eph iv) := by
  have hkey := deriveKey_length (x25519Exchange eph peerPub)
  have hkeyb := deriveKey_allBytes (x25519Exchange eph peerPub)
  refine allBytes_append _ _ hib (allBytes_append _ _ (x25519PubOf_allBytes _)
    (allBytes_append _ _ ?_ ?_))
  · exact (gcmTag_good _ _ _ hkey hkeyb hiv hib).2
  · exact gcmCipher_allBytes _ _ _ hkey hkeyb hiv hib (utf8Bytes_allBytes pt)

theorem sealBytes_parts (pt : String) (peerPub eph iv : Bytes)
    (hiv : iv.length = 12) (hib : allBytes iv) :
    (sealBytes pt peerPub eph iv).take 12 = iv ∧
    ((sealBytes pt peerPub eph iv).drop 12).take 32 = x25519PubOf eph ∧
    ((sealBytes pt peerPub eph iv).drop 44).take 16 =
      gcmTag (deriveKey (x25519Exchange eph peerPub)) iv
        (gcmCipher (deriveKey (x25519Exchange eph peerPub)) iv (utf8Bytes pt)) ∧
    (sealBytes pt peerPub eph iv).drop 60 =
      gcmCipher (deriveKey (x25519Exchange eph peerPub)) iv (utf8Bytes pt) ∧
    (sealBytes pt peerPub eph iv).length = 60 + (utf8Bytes pt).length := by
  have hkey := deriveKey_length (x25519Exchange eph peerPub)
  have hkeyb := deriveKey_allBytes (x25519Exchange eph peerPub)
  have hpub := x25519PubOf_length eph
  have htag := (gcmTag_good (deriveKey (x25519Exchange eph peerPub)) iv
    (gcmCipher (deriveKey (x25519Exchange eph peerPub)) iv (utf8Bytes pt)) hkey hkeyb hiv hib).1
  have hct := gcmCipher_length (deriveKey (x25519Exchange eph peerPub)) iv (utf8Bytes pt)
    hkey hkeyb hiv hib
  unfold sealBytes
  have hdrop12 : (iv ++ (x25519PubOf eph ++
      (gcmTag (deriveKey (x25519Exchange eph peerPub)) iv
        (gcmCipher (deriveKey (x25519Exchange eph peerPub)) iv (utf8Bytes pt)) ++
      gcmCipher (deriveKey (x25519Exchange eph peerPub)) iv (utf8Bytes pt)))).drop 12 =
      x25519PubOf eph ++
      (gcmTag (deriveKey (x25519Exchange eph peerPub)) iv
        (gcmCipher (deriveKey (x25519Exchange eph peerPub)) iv (utf8Bytes pt)) ++
      gcmCipher (deriveKey (x25519Exchange eph peerPub)) iv (utf8Bytes pt)) :=
    List.drop_left' hiv
  have hdrop44 : (iv ++ (x25519PubOf eph ++
      (gcmTag (deriveKey (x25519Exchange eph peerPub)) iv
        (gcmCipher (deriveKey (x25519Exchange eph peerPub)) iv (utf8Bytes pt)) ++
      gcmCipher (deriveKey (x25519Exchange eph peerPub)) iv (utf8Bytes pt)))).drop 44 =
      gcmTag (deriveKey (x25519Exchange eph peerPub)) iv
        (gcmCipher (deriveKey (x25519Exchange eph peerPub)) iv (utf8Bytes pt)) ++
      gcmCipher (deriveKey (x25519Exchange eph peerPub)) iv (utf8Bytes pt) := by
    rw [show (44 : Nat) = 12 + 32 from rfl, ← List.drop_drop, hdrop12, List.drop_left' hpub]
  refine ⟨List.take_left' hiv, ?_, ?_, ?_, ?_⟩
  · rw [hdrop12]
    exact List.take_left' hpub
  · rw [hdrop44]
    exact List.take_left' htag
  · rw [show (60 : Nat) = 44 + 16 from rfl, ← List.drop_drop, hdrop44, List.drop_left' htag]
  · simp only [List.length_append, hiv, hpub, htag, hct]
    omega

theorem unsealPayload_ok (payload : String) (recipPriv bs pt : Bytes)
    (hdec : b64Decode payload = some bs) (hlen : ¬ bs.length < 60)
    (hgcm : gcmDecrypt (deriveKey (x25519Exchange recipPriv ((bs.drop 12).take 32)))
        (bs.take 12) (bs.drop 60) ((bs.drop 44).take 16) = some pt) :
    unsealPayload payload recipPriv = .ok pt := by
  unfold unsealPayload
  rw [hdec]
  dsimp only
  rw [if_neg hlen, hgcm]

/-- Sealing to the public key of `xPriv` and unsealing with `xPriv`
recovers the plaintext bytes. -/
theorem unseal_encrypt (pt : String) (xPriv eph iv : Bytes)
    (hiv : iv.length = 12) (hib : allBytes iv) :
    unsealPayload (encryptPayload pt (x25519PubOf xPriv) eph iv) xPriv =
      .ok (utf8Bytes pt) := by
  have hparts := sealBytes_parts pt (x25519PubOf xPriv) eph iv hiv hib
  obtain ⟨h12, h32, h16, h60, hlen⟩ := hparts
  have hdec : b64Decode (encryptPayload pt (x25519PubOf xPriv) eph iv) =
      some (sealBytes pt (x25519PubOf xPriv) eph iv) := by
    rw [encryptPayload_def]
    exact b64_roundtrip _ (sealBytes_allBytes pt (x25519PubOf xPriv) eph iv hiv hib)
  apply unsealPayload_ok _ _ _ _ hdec (by omega)
  rw [h12, h32, h16, h60, x25519_dh_comm xPriv eph]
  exact gcm_roundtrip (deriveKey (x25519Exchange eph (x25519PubOf xPriv))) iv (utf8Bytes pt)
    (deriveKey_length _) (deriveKey_allBytes _) hiv hib

/-! ## Lemmas about the wallet manager -/

theorem hexByte_flatMap_length (bs : Bytes) : (bs.flatMap hexByte).length = 2 * bs.length := by
  induction bs with
  | nil => rfl
  | cons b l ih =>
    simp only [List.flatMap_cons, List.length_append, ih, hexByte, List.length_cons,
      List.length_nil]
    omega

theorem string_data_length (s : String) : s.data.length = s.length := by
  cases s
  rfl

theorem string_take_length (s : String) (n : Nat) : (s.take n).length = min n s.length := by
  show (s.take n).data.length = _
  rw [String.data_take, List.length_take]
  rfl

theorem getWalletId_length (env : Env) : (getWalletId env).length = 32 := by
  unfold getWalletId
  rw [string_take_length]
  have h : (hexDigest (sha256 (utf8Bytes (env.email ++ "-" ++ pyStrip env.sshPubText)))).length
      = 64 := by
    show ((sha256 (utf8Bytes (env.email ++ "-" ++ pyStrip env.sshPubText))).flatMap
      hexByte).length = 64
    rw [hexByte_flatMap_length, sha256_length]
  rw [h]
  omega

theorem tokenTypes_snd_short (q : String × String) (hq : q ∈ tokenTypes) : q.2.length ≤ 10 := by
  simp only [tokenTypes, List.mem_cons, List.not_mem_nil, or_false] at hq
  rcases hq with h | h | h | h <;> subst h <;> decide

theorem validate_iff (env : Env) (name : String) :
    validateSecretOwnership env name = true ↔
      ∃ q ∈ tokenTypes, name = q.2 ++ "-" ++ getWalletId env := by
  simp only [validateSecretOwnership, List.any_eq_true, beq_iff_eq]

theorem mem_listWalletSecrets (env : Env) (st : Store) (r : SecretRec) :
    r ∈ listWalletSecrets env st ↔
      ∃ q ∈ tokenTypes, ∃ e : StoreEntry,
        describeSecret st (q.2 ++ "-" ++ getWalletId env) = some e ∧ e.deleted = false ∧
        r = ⟨q.2 ++ "-" ++ getWalletId env, q.2,
          q.2 ++ "-" ++ (getWalletId env).take 3 ++ "...", q.1⟩ := by
  simp only [listWalletSecrets, List.mem_filterMap]
  refine exists_congr fun q => ?_
  constructor
  · rintro ⟨hq, hf⟩
    refine ⟨hq, ?_⟩
    cases hd : describeSecret st (q.2 ++ "-" ++ getWalletId env) with
    | none => rw [hd] at hf; cases hf
    | some e =>
      rw [hd] at hf
      dsimp only at hf
      by_cases he : e.deleted = true
      · rw [if_pos he] at hf
        cases hf
      · rw [if_neg he] at hf
        injection hf with hf
        exact ⟨e, rfl, by simpa using he, hf.symm⟩
  · rintro ⟨hq, e, hd, he, hr⟩
    refine ⟨hq, ?_⟩
    rw [hd]
    dsimp only
    rw [if_neg (by simp [he]), hr]

theorem any_token_of_describe (env : Env) (st : Store) (q : String × String) (e : StoreEntry)
    (hq : q ∈ tokenTypes) (hd : describeSecret st (q.2 ++ "-" ++ getWalletId env) = some e)
    (he : e.deleted = false) :
    (listWalletSecrets env st).any (fun r => r.token_type == q.1) = true := by
  rw [List.any_eq_true]
  refine ⟨⟨q.2 ++ "-" ++ getWalletId env, q.2,
    q.2 ++ "-" ++ (getWalletId env).take 3 ++ "...", q.1⟩, ?_, by simp⟩
  rw [mem_listWalletSecrets]
  exact ⟨q, hq, e, hd, he, rfl⟩

theorem updateKey_guard (env : Env) (st : Store) (name key : String) (eph iv : Bytes)
    (h : validateSecretOwnership env name = false) :
    updateKey env st name key eph iv = (st, .updateFormErr name) := by
  unfold updateKey
  rw [h]
  rfl

theorem deleteKey_guard (env : Env) (st : Store) (name : String)
    (h : validateSecretOwnership env name = false) :
    deleteKey env st name = (st, .actionsErr "Delete failed. Try again.") := by
  unfold deleteKey
  rw [h]
  rfl

theorem addKey_unknown (env : Env) (st : Store) (tt key : String) (eph iv : Bytes)
    (h : ∀ q ∈ tokenTypes, q.1 ≠ tt) :
    addKey env st tt key eph iv = (st, .addFormErr) := by
  unfold addKey
  have hfind : tokenTypes.find? (fun tp => tp.1 == tt) = none :=
    List.find?_eq_none.mpr (fun q hq => by simp [h q hq])
  rw [hfind]
  rfl

theorem addKey_duplicate (env : Env) (st : Store) (q : String × String) (e : StoreEntry)
    (tt key : String) (eph iv : Bytes) (hq : q ∈ tokenTypes) (htt : q.1 = tt)
    (hd : describeSecret st (q.2 ++ "-" ++ getWalletId env) = some e)
    (he : e.deleted = false) :
    ∃ msg : String, addKey env st tt key eph iv = (st, .addFormErrMsg msg) := by
  have hfind : (tokenTypes.find? (fun tp => tp.1 == tt)).isNone = false := by
    cases hf : tokenTypes.find? (fun tp => tp.1 == tt) with
    | some _ => rfl
    | none => exact absurd (List.find?_eq_none.mp hf q hq) (by simp [htt])
  have hany := any_token_of_describe env st q e hq hd he
  rw [htt] at hany
  simp only [addKey, hfind, hany, Bool.false_eq_true, if_false, if_true]
  exact ⟨_, rfl⟩

theorem createWalletSecret_name (env : Env) (st : Store) (tt pt name : String)
    (eph iv : Bytes) (st2 : Store)
    (h : createWalletSecret env st tt pt eph iv = .ok (name, st2)) :
    ∃ q ∈ tokenTypes, q.1 = tt ∧ name = q.2 ++ "-" ++ getWalletId env := by
  cases hc : ed25519ToX25519 env.edPrivRaw env.edPubRaw with
  | none =>
    simp only [createWalletSecret, hc] at h
    exact Except.noConfusion h
  | some pr =>
    obtain ⟨sk, xPub⟩ := pr
    cases hf : tokenTypes.find? (fun tp => tp.1 == tt) with
    | none =>
      simp only [createWalletSecret, hc, hf] at h
      exact Except.noConfusion h
    | some q =>
      simp only [createWalletSecret, hc, hf, Except.ok.injEq, Prod.mk.injEq] at h
      refine ⟨q, List.mem_of_find?_eq_some hf, ?_, ?_⟩
      · have := List.find?_some hf
        simpa using this
      · rw [← h.1, getWalletId]

/-! ## Concrete witness data

`wEdPriv` is an arbitrary 32-byte Ed25519 seed; `wEdPub` encodes the `y`
whose birational image is exactly the model public key of the derived
scalar, so the pair forms a valid keypair of the model; `wXPriv`/`wXPub`
are the converted X25519 keys; `wDegPub` encodes `y = 1`, the degenerate
point of the birational map. -/

def wEdPriv : Bytes :=
  [1, 2, 3, 4, 5, 6, 7, 8, 9, 10, 11, 12, 13, 14, 15, 16,
   17, 18, 19, 20, 21, 22, 23, 24, 25, 26, 27, 28, 29, 30, 31, 32]

def wEdPub : Bytes :=
  [136, 20, 81, 137, 27, 252, 231, 225, 196, 22, 75, 173, 139, 241, 105, 227,
   72, 0, 113, 130, 144, 109, 171, 172, 110, 113, 95, 17, 112, 77, 64, 47]

def wXPriv : Bytes :=
  [112, 120, 143, 26, 12, 234, 0, 26, 38, 49, 218, 229, 208, 93, 189, 6,
   32, 8, 213, 179, 15, 80, 185, 226, 155, 235, 42, 120, 34, 40, 144, 68]

def wXPub : Bytes :=
  [197, 148, 213, 163, 24, 77, 110, 189, 158, 137, 229, 191, 62, 145, 220, 43,
   5, 142, 140, 7, 162, 147, 176, 173, 90, 164, 159, 192, 41, 238, 39, 2]

def wDegPub : Bytes := 1 :: List.replicate 31 0

def wEph : Bytes := List.replicate 32 7

def wIv : Bytes := [0, 1, 2, 3, 4, 5, 6, 7, 8, 9, 10, 11]

/-- Identity used by the wallet-layer witnesses; the raw key views are
empty, which the conversion model accepts (`y = 0` maps to `u = 1`). -/
def wEnv : Env := ⟨"alice@example.com", "ssh-ed25519 AAAAC3Nz xyz", [], []⟩

/-- A store holding one live gitlab secret of `wEnv`'s wallet. -/
def wStore : Store :=
  [("gitlab-d51dc0a304609143fcd57201bfa8c40a", ⟨"blob", false⟩)]

def wRec : SecretRec :=
  ⟨"gitlab-d51dc0a304609143fcd57201bfa8c40a", "gitlab", "gitlab-d51...", "gitlab_token"⟩

/-! ## The claims -/

/-- C1: for every plaintext and every valid X25519 keypair derived from an
Ed25519 SSH identity by `_ed25519_to_x25519`, unsealing the base64 payload
produced by `_encrypt_payload` with the static private key - splitting the
fixed-width fields, recomputing the shared secret, re-deriving the
symmetric key and AES-256-GCM decrypt-and-verify - returns exactly the
plaintext. -/
theorem claim1_seal_unseal_roundtrip (edPriv edPub xPriv xPub eph iv : Bytes) (pt : String)
    (hconv : ed25519ToX25519 edPriv edPub = some (xPriv, xPub))
    (hvalid : xPub = x25519PubOf xPriv)
    (hiv : iv.length = 12) (hib : allBytes iv) :
    unsealPayload (encryptPayload pt xPub eph iv) xPriv = .ok (utf8Bytes pt) := by
  rw [hvalid]
  exact unseal_encrypt pt xPriv eph iv hiv hib

set_option maxRecDepth 1000000 in
/-- Concrete instance of C1's round trip. -/
theorem claim1_witness :
    unsealPayload (encryptPayload "hi" wXPub wEph wIv) wXPriv = .ok (utf8Bytes "hi") :=
  claim1_seal_unseal_roundtrip wEdPriv wEdPub wXPriv wXPub wEph wIv "hi"
    (by decide) (by decide) (by decide) (by decide)

/-- C2: on every successful conversion the X25519 private scalar is the
first 32 bytes of SHA-512 of the raw Ed25519 private key with the three
clamping byte operations applied, and the public side is the 32
little-endian bytes of the `u < p` with `(1 - y) * u = 1 + y (mod p)`,
`y` the masked little-endian value of the raw public key. -/
theorem claim2_conversion_formula (edPriv edPub sk pk : Bytes)
    (h : ed25519ToX25519 edPriv edPub = some (sk, pk)) :
    sk = clampBytes ((sha512 edPriv).take 32) ∧ sk.length = 32 ∧
    ∃ u : Nat, u < p25519 ∧ pk = toLE 32 u ∧
      Int.ModEq (p25519 : Int)
        ((1 - ((fromLE edPub &&& (2 ^ 255 - 1) : Nat) : Int)) * u)
        (1 + ((fromLE edPub &&& (2 ^ 255 - 1) : Nat) : Int)) :=
  ed25519ToX25519_spec edPriv edPub sk pk h

set_option maxRecDepth 1000000 in
/-- Concrete instance of C2. -/
theorem claim2_witness :
    wXPriv = clampBytes ((sha512 wEdPriv).take 32) ∧ wXPriv.length = 32 ∧
    ∃ u : Nat, u < p25519 ∧ wXPub = toLE 32 u ∧
      Int.ModEq (p25519 : Int)
        ((1 - ((fromLE wEdPub &&& (2 ^ 255 - 1) : Nat) : Int)) * u)
        (1 + ((fromLE wEdPub &&& (2 ^ 255 - 1) : Nat) : Int)) :=
  claim2_conversion_formula wEdPriv wEdPub wXPriv wXPub (by decide)

/-- C3: `_validate_secret_ownership` holds exactly when the name is
`prefix ++ "-" ++ wallet_id` for the freshly recomputed wallet id and a
registered prefix; when it does not hold, the update and delete handlers
return their error response and leave the store exactly as it was. -/
theorem claim3_ownership_guard (env : Env) (st : Store) (name key : String) (eph iv : Bytes) :
    (validateSecretOwnership env name = true ↔
      ∃ q ∈ tokenTypes, name = q.2 ++ "-" ++ getWalletId env) ∧
    (validateSecretOwnership env name = false →
      updateKey env st name key eph iv = (st, .updateFormErr name) ∧
      deleteKey env st name = (st, .actionsErr "Delete failed. Try again.")) :=
  ⟨validate_iff env name, fun h => ⟨updateKey_guard env st name key eph iv h,
    deleteKey_guard env st name h⟩⟩

set_option maxRecDepth 1000000 in
/-- Concrete instance of C3's guard. -/
theorem claim3_witness :
    updateKey wEnv wStore "evil-name" "k" [] [] = (wStore, .updateFormErr "evil-name") ∧
    deleteKey wEnv wStore "evil-name" = (wStore, .actionsErr "Delete failed. Try again.") :=
  (claim3_ownership_guard wEnv wStore "evil-name" "k" [] []).2 (by decide)

/-- C4: `add_key` with a token type already live for the wallet (as
determined by listing) fails with the duplicate error and performs no
store mutation; with an unknown token type it fails before any store
mutation. -/
theorem claim4_create_guards (env : Env) (st : Store) (tt key : String) (eph iv : Bytes)
    (q : String × String) (e : StoreEntry) :
    ((∀ w ∈ tokenTypes, w.1 ≠ tt) → addKey env st tt key eph iv = (st, .addFormErr)) ∧
    (q ∈ tokenTypes → q.1 = tt →
      describeSecret st (q.2 ++ "-" ++ getWalletId env) = some e → e.deleted = false →
      ∃ msg, addKey env st tt key eph iv = (st, .addFormErrMsg msg)) :=
  ⟨fun h => addKey_unknown env st tt key eph iv h,
    fun hq htt hd he => addKey_duplicate env st q e tt key eph iv hq htt hd he⟩

set_option maxRecDepth 1000000 in
/-- Concrete instance of C4's two guards. -/
theorem claim4_witness :
    addKey wEnv wStore "bogus_token" "v" [] [] = (wStore, .addFormErr) ∧
    ∃ msg, addKey wEnv wStore "gitlab_token" "v" [] [] = (wStore, .addFormErrMsg msg) :=
  ⟨(claim4_create_guards wEnv wStore "bogus_token" "v" [] []
      ("gitlab_token", "gitlab") ⟨"blob", false⟩).1 (by decide),
   (claim4_create_guards wEnv wStore "gitlab_token" "v" [] []
      ("gitlab_token", "gitlab") ⟨"blob", false⟩).2 (by decide) (by decide)
      (by decide) (by decide)⟩

/-- C5: the wallet id is the first 32 hex characters of SHA-256 of
`email ++ "-" ++ trimmed public key text`, and the recomputation inside
`_create_wallet_secret` names the secret `prefix ++ "-" ++` exactly that
wallet id. -/
theorem claim5_wallet_id (env : Env) (st : Store) (tt pt name : String) (eph iv : Bytes)
    (st2 : Store) :
    getWalletId env =
      (hexDigest (sha256 (utf8Bytes (env.email ++ "-" ++ pyStrip env.sshPubText)))).take 32 ∧
    (createWalletSecret env st tt pt eph iv = .ok (name, st2) →
      ∃ q ∈ tokenTypes, q.1 = tt ∧ name = q.2 ++ "-" ++ getWalletId env) :=
  ⟨by rfl, fun h => createWalletSecret_name env st tt pt name eph iv st2 h⟩

set_option maxRecDepth 1000000 in
/-- Concrete instance of C5: a successful create names the secret with
the recomputed wallet id. -/
theorem claim5_witness :
    ∃ q ∈ tokenTypes, q.1 = "gitlab_token" ∧
      "gitlab-d51dc0a304609143fcd57201bfa8c40a" = q.2 ++ "-" ++ getWalletId wEnv :=
  (claim5_wallet_id wEnv [] "gitlab_token" "tok"
    "gitlab-d51dc0a304609143fcd57201bfa8c40a" wEph wIv
    (storeSecret [] "gitlab-d51dc0a304609143fcd57201bfa8c40a"
      (encryptPayload "tok" (toLE 32 1) wEph wIv))).2 (by rfl)

/-- C6: the sealed payload is, before base64 text encoding, exactly
`IV(12) ++ ephemeral public key(32) ++ tag(16) ++ ciphertext`, and the
stored value is the base64 encoding of that concatenation. -/
theorem claim6_payload_layout (pt : String) (peerPub eph iv : Bytes)
    (hiv : iv.length = 12) (hib : allBytes iv) :
    b64Decode (encryptPayload pt peerPub eph iv) =
      some (iv ++ (x25519PubOf eph ++
        (gcmTag (deriveKey (x25519Exchange eph peerPub)) iv
          (gcmCipher (deriveKey (x25519Exchange eph peerPub)) iv (utf8Bytes pt)) ++
        gcmCipher (deriveKey (x25519Exchange eph peerPub)) iv (utf8Bytes pt)))) ∧
    (x25519PubOf eph).length = 32 ∧
    (gcmTag (deriveKey (x25519Exchange eph peerPub)) iv
      (gcmCipher (deriveKey (x25519Exchange eph peerPub)) iv (utf8Bytes pt))).length = 16 := by
  refine ⟨?_, x25519PubOf_length eph,
    (gcmTag_good _ _ _ (deriveKey_length _) (deriveKey_allBytes _) hiv hib).1⟩
  rw [encryptPayload_def, b64_roundtrip _ (sealBytes_allBytes pt peerPub eph iv hiv hib)]
  rfl

set_option maxRecDepth 1000000 in
/-- Concrete instance of C6, projected to the tag-length fact. -/
theorem claim6_witness :
    (x25519PubOf wEph).length = 32 ∧
    (gcmTag (deriveKey (x25519Exchange wEph wXPub)) wIv
      (gcmCipher (deriveKey (x25519Exchange wEph wXPub)) wIv (utf8Bytes "hi"))).length = 16 :=
  ⟨(claim6_payload_layout "hi" wXPub wEph wIv (by decide) (by decide)).2.1,
   (claim6_payload_layout "hi" wXPub wEph wIv (by decide) (by decide)).2.2⟩

/-- C7: the conversion fails hard - no substitute value - when the public
key encodes `y` with `1 - y = 0 (mod p)`, and a parse failure of the
supplied key material propagates as the same failure. -/
theorem claim7_conversion_failure (edPriv edPub : Bytes) (parsed : Option (Bytes × Bytes))
    (hdeg : ((1 : Int) - ((fromLE edPub &&& (2 ^ 255 - 1) : Nat) : Int)) % (p25519 : Int) = 0) :
    ed25519ToX25519 edPriv edPub = none ∧
    (parsed = none → convertParsedIdentity parsed = none) :=
  ⟨ed25519ToX25519_degenerate edPriv edPub hdeg, fun h => by rw [h]; rfl⟩

set_option maxRecDepth 1000000 in
/-- Concrete instance of C7 at `y = 1`. -/
theorem claim7_witness :
    ed25519ToX25519 wEdPriv wDegPub = none ∧
    ((none : Option (Bytes × Bytes)) = none →
      convertParsedIdentity (none : Option (Bytes × Bytes)) = none) :=
  claim7_conversion_failure wEdPriv wDegPub none (by decide)

/-- C8: `_derive_key` returns the 32-byte HKDF-SHA-256 output with the
zero salt the library substitutes for `None` and the fixed info string
`"wallet-encryption"`; it is deterministic, and the only failure mode of
the primitive - the output-length validation - accepts length 32. -/
theorem claim8_derive_key (s s2 : Bytes) :
    (deriveKey s).length = 32 ∧
    deriveKey s = hkdfSha256 (List.replicate 32 0) (utf8Bytes "wallet-encryption") 32 s ∧
    (s2 = s → deriveKey s2 = deriveKey s) ∧
    hkdfLengthOk 32 = true :=
  ⟨deriveKey_length s, by rfl, fun h => by rw [h], by decide⟩

set_option maxRecDepth 1000000 in
/-- Concrete instance of C8. -/
theorem claim8_witness :
    (deriveKey (List.replicate 32 1)).length = 32 ∧
    deriveKey (List.replicate 32 1) = deriveKey (List.replicate 32 1) :=
  ⟨(claim8_derive_key (List.replicate 32 1) (List.replicate 32 1)).1,
   (claim8_derive_key (List.replicate 32 1) (List.replicate 32 1)).2.2.1 rfl⟩

/-- C9: a record is listed exactly when the store holds a live (not
soft-deleted) entry under one of the four registry names for the
recomputed wallet id; every listed record displays
`prefix ++ "-" ++ first 3 wallet id characters ++ "..."`, and the full
wallet id appears in no display field. -/
theorem claim9_list_secrets (env : Env) (st : Store) (r : SecretRec) :
    (r ∈ listWalletSecrets env st ↔ ∃ q ∈ tokenTypes, ∃ e : StoreEntry,
        describeSecret st (q.2 ++ "-" ++ getWalletId env) = some e ∧ e.deleted = false ∧
        r = ⟨q.2 ++ "-" ++ getWalletId env, q.2,
          q.2 ++ "-" ++ (getWalletId env).take 3 ++ "...", q.1⟩) ∧
    (r ∈ listWalletSecrets env st →
      r.truncated = r.pfx ++ "-" ++ (getWalletId env).take 3 ++ "..." ∧
      ¬ List.IsInfix (getWalletId env).data r.truncated.data) := by
  refine ⟨mem_listWalletSecrets env st r, ?_⟩
  intro hr
  obtain ⟨q, hq, e, hd, he, hrec⟩ := (mem_listWalletSecrets env st r).mp hr
  subst hrec
  refine ⟨rfl, ?_⟩
  intro hinf
  have hwid : (getWalletId env).data.length = 32 := by
    rw [string_data_length]
    exact getWalletId_length env
  have hq10 : q.2.data.length ≤ 10 := by
    rw [string_data_length]
    exact tokenTypes_snd_short q hq
  have hlen : (getWalletId env).data.length ≤
      (q.2 ++ "-" ++ (getWalletId env).take 3 ++ "...").data.length :=
    List.IsInfix.length_le hinf
  have htr : (q.2 ++ "-" ++ (getWalletId env).take 3 ++ "...").data.length ≤ 17 := by
    have h3 : ((getWalletId env).take 3).data.length = 3 := by
      rw [String.data_take, List.length_take, hwid]
      decide
    simp only [String.data_append, List.length_append, h3, List.length_cons,
      List.length_nil]
    omega
  omega

set_option maxRecDepth 1000000 in
/-- Concrete instance of C9's display properties. -/
theorem claim9_witness :
    wRec.truncated = wRec.pfx ++ "-" ++ (getWalletId wEnv).take 3 ++ "..." ∧
    ¬ List.IsInfix (getWalletId wEnv).data wRec.truncated.data :=
  (claim9_list_secrets wEnv wStore wRec).2 (by decide)

/-- C10: the decoded sealed payload has byte length exactly
`60 + |utf8(plaintext)|`: the GCM ciphertext is as long as the plaintext,
preceded by the 12-byte IV, 32-byte ephemeral key and 16-byte tag. -/
theorem claim10_payload_length (pt : String) (peerPub eph iv : Bytes)
    (hiv : iv.length = 12) (hib : allBytes iv) :
    (b64Decode (encryptPayload pt peerPub eph iv)).map List.length =
      some (60 + (utf8Bytes pt).length) := by
  have hdec : b64Decode (encryptPayload pt peerPub eph iv) =
      some (sealBytes pt peerPub eph iv) := by
    rw [encryptPayload_def]
    exact b64_roundtrip _ (sealBytes_allBytes pt peerPub eph iv hiv hib)
  rw [hdec]
  rw [Option.map_some']
  rw [(sealBytes_parts pt peerPub eph iv hiv hib).2.2.2.2]

set_option maxRecDepth 1000000 in
/-- Concrete instance of C10. -/
theorem claim10_witness :
    (b64Decode (encryptPayload "hi" wXPub wEph wIv)).map List.length =
      some (60 + (utf8Bytes "hi").length) :=
  claim10_payload_length "hi" wXPub wEph wIv (by decide) (by decide)

end WalletCore
